import Mathlib

/-!
Verification of the nabis-inventory reservation/release/adjust/reconcile core.

The definitions below are a shallow embedding of the TypeScript source:
* `services/shared/src/services/inventory-service.ts` (`InventoryService.reserveInventoryForOrder`,
  `InventoryService.releaseInventoryForOrder`),
* `services/shared/src/services/wms-sync-service.ts` (`WmsSyncService.reconcileBatch`),
* the `/admin/inventory/adjust` route handler of the admin API,
* `services/event-dispatcher/src/index.ts` (`EventDispatcher.processBatch`),
* the schema constraints of `services/shared/src/db/migrations` (check constraints on
  `sku_batch`, the unique `(order_id, sku_batch_id)` constraint on `order_reservation`).

Database rows are Lean structures, the database is explicit state, and each SQL
statement of the source becomes a pure state-passing function.  Fallible code
returns `Except`.  Each operation takes a `strict` flag: with `strict = true`
the write primitives enforce the Postgres constraints of the migrations
(raising like the live database and rolling the transaction back), with
`strict = false` they never fail, which is the behaviour of the mocked
`PoolClient` used by the repository's unit tests.
-/

namespace Nabis

/-- Ledger entry type enum, from the check constraint on `inventory_ledger.type`. -/
inductive LedgerType where
  | RECEIPT
  | ORDER_ALLOCATE
  | ORDER_RELEASE
  | ADJUSTMENT
deriving DecidableEq

/-- Ledger source enum, from the check constraint on `inventory_ledger.source`. -/
inductive LedgerSource where
  | NABIS_ORDER
  | WMS_SYNC
  | MANUAL_ADJUSTMENT
  | WMS_OUTBOUND
deriving DecidableEq

/-- Reservation status enum, from the check constraint on `order_reservation.status`. -/
inductive ResStatus where
  | PENDING
  | CONFIRMED
  | CANCELLED
  | EXPIRED
deriving DecidableEq

/-- A `sku_batch` row (quantity columns only; timestamps and SKU metadata are
not read by any of the modelled operations). -/
structure Batch where
  id : Nat
  totalQuantity : Int
  unallocatableQuantity : Int
  availableQuantity : Int
deriving DecidableEq

/-- The `metadata` JSON written to ledger entries: the admin adjust handler
writes `{reason}`, the WMS reconciler writes `{previousAvailable, newAvailable}`. -/
inductive LedgerMetadata where
  | reasonOnly (reason : String)
  | prevNew (previousAvailable newAvailable : Int)
deriving DecidableEq

/-- An `inventory_ledger` row (append-only). -/
structure LedgerEntry where
  skuBatchId : Nat
  type : LedgerType
  quantityDelta : Int
  source : LedgerSource
  referenceId : Option String
  metadata : Option LedgerMetadata
deriving DecidableEq

/-- An `order_reservation` row. -/
structure Reservation where
  id : Nat
  orderId : String
  skuBatchId : Nat
  quantity : Int
  status : ResStatus
deriving DecidableEq

/-- The JSON payloads written to `domain_event` by the three writers
(timestamps are real time and are not modelled). -/
inductive EventPayload where
  | allocated (orderId : String) (skuBatchId : Nat) (quantity : Int)
  | released (orderId : String) (skuBatchId : Nat) (quantity : Int) (reason : String)
  | adjusted (skuBatchId : Nat) (quantityDelta : Int) (newAvailable : Int)
      (source : String) (reason : String)
deriving DecidableEq

/-- A `domain_event` row as written by the business transactions (dispatcher
columns `status`/`retry_count`/`error` are modelled separately for the
dispatcher). -/
structure DomainEventRow where
  type : String
  payload : EventPayload
deriving DecidableEq

/-- A `wms_inventory_snapshot` input/row, from `WmsSnapshot` in
`types/inventory.types` (raw payload and report time omitted). -/
structure SnapshotRow where
  wmsSkuBatchId : String
  skuBatchId : Option Nat
  reportedOrderable : Int
  reportedUnallocatable : Option Int
deriving DecidableEq

/-- The shared relational store of record. -/
structure DB where
  batches : List Batch
  ledger : List LedgerEntry
  reservations : List Reservation
  events : List DomainEventRow
  snapshots : List SnapshotRow
  nextReservationId : Nat
deriving DecidableEq

/-- Errors: the `DomainError` subclasses of `utils/errors.ts` plus the two
Postgres constraint errors that the modelled schema can raise. -/
inductive DomainErr where
  | invalidQuantity (msg : String)
  | batchNotFound (skuBatchId : Nat)
  | insufficientInventory (skuBatchId : Nat) (requested available : Int)
  | orderNotFound (orderId : String)
  | orderAlreadyReserved (orderId : String)
  | uniqueViolation
  | checkViolation
deriving DecidableEq

/-- The stable error code surfaced at the HTTP boundary: route handlers map a
`DomainError` to its `code` field and any other thrown error (in particular a
database constraint violation) to `INTERNAL_ERROR` (`routes/inventory.ts`,
`routes/admin.ts`). -/
def errorCode : DomainErr → String
  | .invalidQuantity _ => "INVALID_QUANTITY"
  | .batchNotFound _ => "BATCH_NOT_FOUND"
  | .insufficientInventory _ _ _ => "INSUFFICIENT_INVENTORY"
  | .orderNotFound _ => "ORDER_NOT_FOUND"
  | .orderAlreadyReserved _ => "ORDER_ALREADY_RESERVED"
  | .uniqueViolation => "INTERNAL_ERROR"
  | .checkViolation => "INTERNAL_ERROR"

/-- `SELECT ... FROM sku_batch WHERE id = $1` (first row; `id` is the primary
key, so at most one row matches in a well-formed store). -/
def findBatch (db : DB) (batchId : Nat) : Option Batch :=
  db.batches.find? (fun b => b.id == batchId)

/-- The `available_quantity` of a batch row, if the row exists. -/
def getAvail (db : DB) (batchId : Nat) : Option Int :=
  (findBatch db batchId).map (·.availableQuantity)

/-- The check constraints `available_lte_total` and `quantities_non_negative`
on `sku_batch` from `migrations/001`. -/
def batchConstraintsOk (b : Batch) : Bool :=
  decide (0 ≤ b.availableQuantity) && decide (b.availableQuantity ≤ b.totalQuantity) &&
    decide (0 ≤ b.totalQuantity) && decide (0 ≤ b.unallocatableQuantity)

/-- `UPDATE sku_batch SET available_quantity = g(available_quantity) WHERE id = batchId`
without constraint checking. -/
def mapBatchAvail (db : DB) (batchId : Nat) (g : Int → Int) : DB :=
  { db with
    batches := db.batches.map (fun b =>
      if b.id = batchId then { b with availableQuantity := g b.availableQuantity } else b) }

/-- The same update with the `sku_batch` check constraints enforced when
`strict` (Postgres raises on the violating row and the transaction aborts). -/
def checkedMapAvail (strict : Bool) (db : DB) (batchId : Nat) (g : Int → Int) :
    Except DomainErr DB :=
  if strict && (mapBatchAvail db batchId g).batches.any
      (fun b => b.id == batchId && !(batchConstraintsOk b)) then
    .error .checkViolation
  else
    .ok (mapBatchAvail db batchId g)

/-- `UPDATE sku_batch SET available_quantity = $1 WHERE id = $2` (absolute
write, used by Reserve and by the WMS reconciler). -/
def setBatchAvail (strict : Bool) (db : DB) (batchId : Nat) (v : Int) : Except DomainErr DB :=
  checkedMapAvail strict db batchId (fun _ => v)

/-- `UPDATE sku_batch SET available_quantity = available_quantity + $1 WHERE id = $2`
(relative write, used by Release and by the admin adjust handler). -/
def incrBatchAvail (strict : Bool) (db : DB) (batchId : Nat) (dq : Int) : Except DomainErr DB :=
  checkedMapAvail strict db batchId (fun a => a + dq)

/-- `INSERT INTO inventory_ledger ...` (append-only). -/
def appendLedger (db : DB) (e : LedgerEntry) : DB :=
  { db with ledger := db.ledger ++ [e] }

/-- `INSERT INTO domain_event ...`. -/
def insertEvent (db : DB) (e : DomainEventRow) : DB :=
  { db with events := db.events ++ [e] }

/-- `INSERT INTO wms_inventory_snapshot ...`. -/
def insertSnapshot (db : DB) (s : SnapshotRow) : DB :=
  { db with snapshots := db.snapshots ++ [s] }

/-- Whether a reservation row for `(orderId, batchId)` of any status exists. -/
def hasReservationFor (db : DB) (orderId : String) (batchId : Nat) : Bool :=
  db.reservations.any (fun r => r.orderId == orderId && r.skuBatchId == batchId)

/-- `INSERT INTO order_reservation ...` with the unique
`(order_id, sku_batch_id)` constraint of `migrations/003` and the
`quantity > 0` check of `migrations/001` enforced when `strict`. -/
def insertReservation (strict : Bool) (db : DB) (orderId : String) (batchId : Nat)
    (q : Int) (st : ResStatus) : Except DomainErr DB :=
  if strict && hasReservationFor db orderId batchId then
    .error .uniqueViolation
  else if strict && decide (q ≤ 0) then
    .error .checkViolation
  else
    .ok { db with
      reservations :=
        db.reservations ++ [⟨db.nextReservationId, orderId, batchId, q, st⟩],
      nextReservationId := db.nextReservationId + 1 }

/-- `UPDATE order_reservation SET status = 'CANCELLED' WHERE id = $1`. -/
def setReservationCancelled (db : DB) (resId : Nat) : DB :=
  { db with
    reservations := db.reservations.map (fun r =>
      if r.id = resId then { r with status := .CANCELLED } else r) }

/-- An order line from `ReserveInventoryRequest` (`types/inventory.types`). -/
structure OrderLine where
  skuBatchId : Nat
  quantity : Int
deriving DecidableEq

/-- Non-strict string comparison of character lists by code point, the order
JavaScript's default `Array.prototype.sort` comparator induces on the decimal
string forms of numbers (code units and code points agree on digits). -/
def charListLe : List Char → List Char → Bool
  | [], _ => true
  | _ :: _, [] => false
  | a :: as, b :: bs =>
    if a.toNat < b.toNat then true
    else if b.toNat < a.toNat then false
    else charListLe as bs

/-- The order in which JavaScript's default sort arranges two numbers:
compare their decimal string representations. -/
def jsStrLe (a b : Nat) : Prop :=
  charListLe (Nat.repr a).data (Nat.repr b).data = true

instance : DecidableRel jsStrLe := fun a b => by
  unfold jsStrLe
  infer_instance

/-- Helper for `dedupFirst`: keep elements not yet seen. -/
def dedupFirstAux (seen : List Nat) : List Nat → List Nat
  | [] => []
  | x :: xs =>
    if x ∈ seen then dedupFirstAux seen xs
    else x :: dedupFirstAux (x :: seen) xs

/-- `[...new Set(xs)]`: deduplication keeping the first occurrence of each
element. -/
def dedupFirst (l : List Nat) : List Nat :=
  dedupFirstAux [] l

/-- `Array.prototype.sort()` with the default comparator on distinct numbers:
sort by decimal string form. -/
def jsSort (l : List Nat) : List Nat :=
  List.insertionSort jsStrLe l

/-- `[...new Set(lines.map((l) => l.skuBatchId))].sort()` from
`reserveInventoryForOrder` (inventory-service.ts line 41): the list of batch
ids handed to the single `FOR UPDATE` query. -/
def reserveLockIds (lines : List OrderLine) : List Nat :=
  jsSort (dedupFirst (lines.map (·.skuBatchId)))

/-- The lookup map built from the rows returned by
`SELECT id, available_quantity FROM sku_batch WHERE id = ANY($1) FOR UPDATE`:
defined on exactly the requested ids that have a row, giving the locked
`available_quantity`. -/
def batchMapOf (db : DB) (lockIds : List Nat) : Nat → Option Int :=
  fun b => if b ∈ lockIds then getAvail db b else none

/-- The validation pass of `reserveInventoryForOrder` (lines 63-78): first
missing batch raises `BatchNotFoundError`, first short batch raises
`InsufficientInventoryError` with `(batchId, requested, available)`. -/
def validateLines (m : Nat → Option Int) : List OrderLine → Except DomainErr Unit
  | [] => .ok ()
  | l :: rest =>
    match m l.skuBatchId with
    | none => .error (.batchNotFound l.skuBatchId)
    | some available =>
      if available < l.quantity then
        .error (.insufficientInventory l.skuBatchId l.quantity available)
      else
        validateLines m rest

/-- The `ORDER_ALLOCATE` ledger row inserted per line (lines 97-108). -/
def allocLedgerEntry (orderId : String) (l : OrderLine) : LedgerEntry :=
  ⟨l.skuBatchId, .ORDER_ALLOCATE, -l.quantity, .NABIS_ORDER, some orderId, none⟩

/-- The apply loop of `reserveInventoryForOrder` (lines 81-144): per line, in
input order, write `available_quantity := batchMap.get(batchId) - quantity`
(the map value read at lock time; the map itself is never updated), append
the allocate ledger row, insert a `PENDING` reservation, insert an
`InventoryAllocated` event. -/
def reserveApplyLoop (strict : Bool) (orderId : String) (m : Nat → Option Int) :
    List OrderLine → DB → Except DomainErr DB
  | [], db => .ok db
  | line :: rest, db => do
    let db1 ← setBatchAvail strict db line.skuBatchId
      ((m line.skuBatchId).getD 0 - line.quantity)
    let db3 ← insertReservation strict (appendLedger db1 (allocLedgerEntry orderId line))
      orderId line.skuBatchId line.quantity .PENDING
    reserveApplyLoop strict orderId m rest (insertEvent db3 ⟨"InventoryAllocated",
      .allocated orderId line.skuBatchId line.quantity⟩)

/-- `InventoryService.reserveInventoryForOrder` (inventory-service.ts lines
19-147): validate, lock the requested batches, check availability, then apply. -/
def reserveInventoryForOrder (strict : Bool) (db : DB) (orderId : String)
    (lines : List OrderLine) : Except DomainErr DB :=
  if lines.isEmpty then
    .error (.invalidQuantity "Order must have at least one line")
  else
    match lines.find? (fun l => decide (l.quantity ≤ 0)) with
    | some l =>
      .error (.invalidQuantity ("Quantity must be positive for batch " ++ toString l.skuBatchId))
    | none => do
      validateLines (batchMapOf db (reserveLockIds lines)) lines
      reserveApplyLoop strict orderId (batchMapOf db (reserveLockIds lines)) lines db

/-- The `ORDER_RELEASE` ledger row inserted per released reservation. -/
def releaseLedgerEntry (orderId : String) (r : Reservation) : LedgerEntry :=
  ⟨r.skuBatchId, .ORDER_RELEASE, r.quantity, .NABIS_ORDER, some orderId, none⟩

/-- The release loop of `releaseInventoryForOrder` (lines 186-240): per
reservation, return the quantity to the batch (relative update), append the
release ledger row, cancel the reservation, insert an `InventoryReleased`
event with `reason || 'ORDER_CANCELLED'`. -/
def releaseApplyLoop (strict : Bool) (orderId : String) (reason : Option String) :
    List Reservation → DB → Except DomainErr DB
  | [], db => .ok db
  | r :: rest, db => do
    let db1 ← incrBatchAvail strict db r.skuBatchId r.quantity
    releaseApplyLoop strict orderId reason rest
      (insertEvent
        (setReservationCancelled (appendLedger db1 (releaseLedgerEntry orderId r)) r.id)
        ⟨"InventoryReleased",
          .released orderId r.skuBatchId r.quantity (reason.getD "ORDER_CANCELLED")⟩)

/-- The reservations fetched by `releaseInventoryForOrder` (lines 161-173):
`WHERE order_id = $1 AND status = 'PENDING' FOR UPDATE`, in table order (the
query carries no ORDER BY). -/
def pendingReservationsFor (db : DB) (orderId : String) : List Reservation :=
  db.reservations.filter (fun r => r.orderId == orderId && r.status == ResStatus.PENDING)

/-- `[...new Set(reservations.map((r) => r.sku_batch_id))]` from
`releaseInventoryForOrder` (line 180): the batch ids locked by Release, in
first-occurrence order — no sort is applied. -/
def releaseLockIds (db : DB) (orderId : String) : List Nat :=
  dedupFirst ((pendingReservationsFor db orderId).map (·.skuBatchId))

/-- `InventoryService.releaseInventoryForOrder` (inventory-service.ts lines
152-243): fetch the PENDING reservations; if none exist raise
`OrderNotFoundError`; otherwise lock the batches and release each
reservation.  The batch-locking `SELECT ... FOR UPDATE` reads no data. -/
def releaseInventoryForOrder (strict : Bool) (db : DB) (orderId : String)
    (reason : Option String) : Except DomainErr DB :=
  if (pendingReservationsFor db orderId).isEmpty then
    .error (.orderNotFound orderId)
  else
    releaseApplyLoop strict orderId reason (pendingReservationsFor db orderId) db

/-- The `ADJUSTMENT` ledger row written by the `/admin/inventory/adjust`
handler: source `MANUAL_ADJUSTMENT`, reference `'ADMIN_API'`, metadata
`{reason}`. -/
def adjustLedgerEntry (batchId : Nat) (delta : Int) (reason : String) : LedgerEntry :=
  ⟨batchId, .ADJUSTMENT, delta, .MANUAL_ADJUSTMENT, some "ADMIN_API", some (.reasonOnly reason)⟩

/-- The `/admin/inventory/adjust` route handler of the admin API:
`UPDATE sku_batch SET available_quantity = available_quantity + $1 ... RETURNING
available_quantity`; an empty result raises `BATCH_NOT_FOUND`; then the
adjustment ledger row is appended.  No domain event is inserted.  Returns the
new available quantity alongside the state. -/
def adjustInventory (strict : Bool) (db : DB) (batchId : Nat) (delta : Int)
    (reason : String) : Except DomainErr (DB × Int) :=
  match findBatch db batchId with
  | none => .error (.batchNotFound batchId)
  | some b => do
    let db1 ← incrBatchAvail strict db batchId delta
    .ok (appendLedger db1 (adjustLedgerEntry batchId delta reason), b.availableQuantity + delta)

/-- `WmsSyncService.reconcileBatch` (wms-sync-service.ts lines 41-159):
always insert the snapshot row; stop if the entry has no (JS-truthy) local
batch id; stop if the batch row is missing; compute
`delta = reportedOrderable - available_quantity`; stop if zero; otherwise
write the reported value, append the `WMS_SYNC` adjustment ledger row with
`{previousAvailable, newAvailable}` metadata, and insert an
`InventoryAdjusted` event. -/
def reconcileBatch (strict : Bool) (db : DB) (s : SnapshotRow) : Except DomainErr DB :=
  if s.skuBatchId.getD 0 = 0 then
    .ok (insertSnapshot db s)
  else
    match findBatch (insertSnapshot db s) (s.skuBatchId.getD 0) with
    | none => .ok (insertSnapshot db s)
    | some b =>
      if s.reportedOrderable - b.availableQuantity = 0 then
        .ok (insertSnapshot db s)
      else do
        let db1 ← setBatchAvail strict (insertSnapshot db s) (s.skuBatchId.getD 0)
          s.reportedOrderable
        .ok (insertEvent
          (appendLedger db1
            ⟨s.skuBatchId.getD 0, .ADJUSTMENT, s.reportedOrderable - b.availableQuantity,
              .WMS_SYNC, some s.wmsSkuBatchId,
              some (.prevNew b.availableQuantity s.reportedOrderable)⟩)
          ⟨"InventoryAdjusted",
            .adjusted (s.skuBatchId.getD 0) (s.reportedOrderable - b.availableQuantity)
              s.reportedOrderable "WMS_SYNC" "WMS reconciliation"⟩)

/-- A committed business operation against the store. -/
inductive Op where
  | reserve (orderId : String) (lines : List OrderLine)
  | release (orderId : String) (reason : Option String)
  | adjust (batchId : Nat) (delta : Int) (reason : String)
  | reconcile (s : SnapshotRow)

/-- Transaction boundary (`withTransaction` in `db/client.ts`): commit the new
state on success, roll back to the old state on any raised error. -/
def commit (db : DB) : Except DomainErr DB → DB
  | .ok db' => db'
  | .error _ => db

/-- Run one operation against the live database (`strict = true`) and commit
or roll back. -/
def applyOp (db : DB) : Op → DB
  | .reserve o lines => commit db (reserveInventoryForOrder true db o lines)
  | .release o r => commit db (releaseInventoryForOrder true db o r)
  | .adjust b d r => commit db ((adjustInventory true db b d r).map Prod.fst)
  | .reconcile s => commit db (reconcileBatch true db s)

/-- Run a sequence of committed operations. -/
def applyOps (db : DB) : List Op → DB
  | [] => db
  | op :: rest => applyOps (applyOp db op) rest

/-- Signed sum of the `quantity_delta` of the ledger entries of one batch. -/
def ledgerSum (db : DB) (batchId : Nat) : Int :=
  ((db.ledger.filter (fun e => e.skuBatchId == batchId)).map (·.quantityDelta)).sum

/-- The ledger sum-source-of-truth invariant: each batch's available quantity
is its initial quantity plus the signed sum of its ledger deltas. -/
def LedgerInvariant (init : Nat → Int) (db : DB) : Prop :=
  ∀ b ∈ db.batches, b.availableQuantity = init b.id + ledgerSum db b.id

/-- Well-formedness: `sku_batch.id` is a primary key, so batch rows have
pairwise distinct ids. -/
def BatchIdsNodup (db : DB) : Prop :=
  (db.batches.map (·.id)).Nodup

theorem bindE_ok {α β : Type} (a : α) (f : α → Except DomainErr β) :
    (Except.ok a >>= f) = f a := rfl

theorem bindE_err {α β : Type} (e : DomainErr) (f : α → Except DomainErr β) :
    ((Except.error e : Except DomainErr α) >>= f) = Except.error e := rfl

theorem mapBatchAvail_ledger (db : DB) (i : Nat) (g : Int → Int) :
    (mapBatchAvail db i g).ledger = db.ledger := rfl

theorem mapBatchAvail_reservations (db : DB) (i : Nat) (g : Int → Int) :
    (mapBatchAvail db i g).reservations = db.reservations := rfl

theorem mapBatchAvail_events (db : DB) (i : Nat) (g : Int → Int) :
    (mapBatchAvail db i g).events = db.events := rfl

theorem appendLedger_batches (db : DB) (e : LedgerEntry) :
    (appendLedger db e).batches = db.batches := rfl

theorem appendLedger_reservations (db : DB) (e : LedgerEntry) :
    (appendLedger db e).reservations = db.reservations := rfl

theorem appendLedger_ledger (db : DB) (e : LedgerEntry) :
    (appendLedger db e).ledger = db.ledger ++ [e] := rfl

theorem insertEvent_batches (db : DB) (e : DomainEventRow) :
    (insertEvent db e).batches = db.batches := rfl

theorem insertEvent_ledger (db : DB) (e : DomainEventRow) :
    (insertEvent db e).ledger = db.ledger := rfl

theorem insertEvent_reservations (db : DB) (e : DomainEventRow) :
    (insertEvent db e).reservations = db.reservations := rfl

theorem insertSnapshot_batches (db : DB) (s : SnapshotRow) :
    (insertSnapshot db s).batches = db.batches := rfl

theorem insertSnapshot_ledger (db : DB) (s : SnapshotRow) :
    (insertSnapshot db s).ledger = db.ledger := rfl

theorem setReservationCancelled_batches (db : DB) (resId : Nat) :
    (setReservationCancelled db resId).batches = db.batches := rfl

theorem setReservationCancelled_ledger (db : DB) (resId : Nat) :
    (setReservationCancelled db resId).ledger = db.ledger := rfl

/-- A `find?` over a mapped list whose mapping does not change the predicate's
verdict finds the image of what `find?` finds in the original list. -/
theorem find?_map_pred {α : Type} (p : α → Bool) (f : α → α)
    (hf : ∀ x, p (f x) = p x) : ∀ (l : List α), (l.map f).find? p = (l.find? p).map f := by
  intro l
  induction l with
  | nil => rfl
  | cons a t ih =>
    by_cases h : p a = true
    · rw [List.map_cons, List.find?_cons_of_pos _ (by rw [hf]; exact h),
        List.find?_cons_of_pos _ h]
      rfl
    · have h' : ¬ p a = true := h
      rw [List.map_cons, List.find?_cons_of_neg _ (by rw [hf]; exact h'),
        List.find?_cons_of_neg _ h', ih]

/-- The quantity update rewrites each row in place, so the id column of the
batch table is untouched. -/
theorem mapBatchAvail_ids (db : DB) (i : Nat) (g : Int → Int) :
    (mapBatchAvail db i g).batches.map (·.id) = db.batches.map (·.id) := by
  show (db.batches.map (fun b =>
    if b.id = i then { b with availableQuantity := g b.availableQuantity } else b)).map
      (·.id) = db.batches.map (·.id)
  rw [List.map_map]
  refine List.map_congr_left fun b _ => ?_
  by_cases h : b.id = i <;> simp [Function.comp, h]

/-- A found batch row carries the requested id. -/
theorem findBatch_id {db : DB} {b : Nat} {r : Batch} (h : findBatch db b = some r) :
    r.id = b := by
  have := List.find?_some h
  simpa using this

/-- With pairwise distinct keys, `find?` by an element's own key returns that
element. -/
theorem find?_key_of_mem_nodup {α : Type} (key : α → Nat) :
    ∀ (l : List α), (l.map key).Nodup → ∀ x ∈ l,
      l.find? (fun y => key y == key x) = some x := by
  intro l
  induction l with
  | nil => intro _ x hx; cases hx
  | cons a t ih =>
    intro hnd x hx
    rw [List.map_cons, List.nodup_cons] at hnd
    rcases List.mem_cons.mp hx with hx | hx
    · subst hx
      exact List.find?_cons_of_pos _ (by simp)
    · by_cases hk : key a = key x
      · exact absurd (hk ▸ List.mem_map_of_mem key hx) hnd.1
      · rw [List.find?_cons_of_neg _ (by simpa using hk)]
        exact ih hnd.2 x hx

/-- In a well-formed store, looking a member row up by its id returns it. -/
theorem findBatch_of_mem {db : DB} (hnd : BatchIdsNodup db) {r : Batch}
    (hr : r ∈ db.batches) : findBatch db r.id = some r := by
  have h := find?_key_of_mem_nodup (fun b : Batch => b.id) db.batches hnd r hr
  exact h

/-- Row uniqueness: a member row whose id matches a found row is that row. -/
theorem mem_eq_of_findBatch {db : DB} (hnd : BatchIdsNodup db) {r s : Batch} {i : Nat}
    (hfind : findBatch db i = some s) (hr : r ∈ db.batches) (hid : r.id = i) : r = s := by
  have h1 : findBatch db r.id = some r := findBatch_of_mem hnd hr
  rw [hid, hfind] at h1
  exact (Option.some.inj h1).symm

theorem getAvail_eq_of_find {db : DB} {i : Nat} {r : Batch}
    (h : findBatch db i = some r) : getAvail db i = some r.availableQuantity := by
  unfold getAvail
  rw [h]
  rfl

/-- Effect of the in-place quantity update on lookups. -/
theorem findBatch_mapBatchAvail (db : DB) (i : Nat) (g : Int → Int) (b : Nat) :
    findBatch (mapBatchAvail db i g) b =
      (findBatch db b).map (fun r =>
        if r.id = i then { r with availableQuantity := g r.availableQuantity } else r) := by
  show (db.batches.map (fun r =>
      if r.id = i then { r with availableQuantity := g r.availableQuantity } else r)).find?
        (fun y => y.id == b) = _
  rw [find?_map_pred]
  · rfl
  · intro r
    by_cases h : r.id = i <;> simp [h]

theorem getAvail_mapBatchAvail (db : DB) (i : Nat) (g : Int → Int) (b : Nat) :
    getAvail (mapBatchAvail db i g) b =
      if b = i then (getAvail db b).map g else getAvail db b := by
  unfold getAvail
  rw [findBatch_mapBatchAvail]
  cases hf : findBatch db b with
  | none => by_cases h : b = i <;> simp [h]
  | some r =>
    have hr : r.id = b := findBatch_id hf
    by_cases h : b = i
    · subst h
      simp [hr]
    · have : ¬ r.id = i := by rw [hr]; exact h
      simp [this, h]

/-- Appending one ledger row adds its delta to exactly its batch's sum. -/
theorem ledgerSum_append (db : DB) (e : LedgerEntry) (b : Nat) :
    ledgerSum (appendLedger db e) b =
      ledgerSum db b + (if e.skuBatchId = b then e.quantityDelta else 0) := by
  unfold ledgerSum
  rw [appendLedger_ledger, List.filter_append, List.map_append, List.sum_append]
  congr 1
  by_cases h : e.skuBatchId = b
  · have hb : (e.skuBatchId == b) = true := by simpa using h
    simp [List.filter, hb, h]
  · have hb : (e.skuBatchId == b) = false := by simpa using h
    simp [List.filter, hb, h]

/-- The per-batch ledger sum only depends on the ledger column. -/
theorem ledgerSum_congr {db db' : DB} (h : db'.ledger = db.ledger) (b : Nat) :
    ledgerSum db' b = ledgerSum db b := by
  unfold ledgerSum
  rw [h]

/-- The invariant only depends on the batch and ledger columns. -/
theorem ledgerInvariant_congr {init : Nat → Int} {db db' : DB}
    (h1 : db'.batches = db.batches) (h2 : db'.ledger = db.ledger) :
    LedgerInvariant init db → LedgerInvariant init db' := by
  intro h b hb
  rw [h1] at hb
  rw [ledgerSum_congr h2]
  exact h b hb

/-- Core preservation step: updating one batch's quantity while appending a
ledger row for the same batch whose delta matches the change keeps the
sum-source-of-truth invariant. -/
theorem ledgerInvariant_paired_update {init : Nat → Int} {db : DB} {i : Nat}
    {g : Int → Int} {d : Int} {e : LedgerEntry}
    (he_id : e.skuBatchId = i) (he_d : e.quantityDelta = d)
    (hg : ∀ r ∈ db.batches, r.id = i → g r.availableQuantity = r.availableQuantity + d)
    (hinv : LedgerInvariant init db) :
    LedgerInvariant init (appendLedger (mapBatchAvail db i g) e) := by
  intro b hb
  rw [appendLedger_batches] at hb
  rcases List.mem_map.mp hb with ⟨r, hr, rfl⟩
  by_cases hid : r.id = i
  · rw [if_pos hid]
    show g r.availableQuantity =
      init r.id + ledgerSum (appendLedger (mapBatchAvail db i g) e) r.id
    rw [ledgerSum_append, ledgerSum_congr (mapBatchAvail_ledger db i g)]
    have hei : e.skuBatchId = r.id := by rw [he_id, hid]
    rw [if_pos hei, he_d, hg r hr hid, hinv r hr]
    ring
  · rw [if_neg hid]
    show r.availableQuantity =
      init r.id + ledgerSum (appendLedger (mapBatchAvail db i g) e) r.id
    rw [ledgerSum_append, ledgerSum_congr (mapBatchAvail_ledger db i g)]
    have hne : ¬ e.skuBatchId = r.id := by
      rw [he_id]
      intro hc
      exact hid hc.symm
    rw [if_neg hne, add_zero]
    exact hinv r hr

/-- Success shape of a checked quantity update. -/
theorem checkedMapAvail_ok {strict : Bool} {db db' : DB} {i : Nat} {g : Int → Int}
    (h : checkedMapAvail strict db i g = .ok db') : db' = mapBatchAvail db i g := by
  unfold checkedMapAvail at h
  split at h
  · cases h
  · exact (Except.ok.inj h).symm

/-- A strict checked update that succeeded leaves every touched row within the
schema check constraints. -/
theorem checkedMapAvail_ok_constraints {db db' : DB} {i : Nat} {g : Int → Int}
    (h : checkedMapAvail true db i g = .ok db') :
    ∀ r ∈ (mapBatchAvail db i g).batches, r.id = i → batchConstraintsOk r = true := by
  unfold checkedMapAvail at h
  split at h
  · cases h
  · next hcond =>
    intro r hr hid
    rw [Bool.true_and] at hcond
    have hall := List.any_eq_false.mp (Bool.of_not_eq_true hcond)
    have := hall r hr
    by_contra hok
    apply this
    simp [hid, Bool.of_not_eq_true hok]

/-- Success shape of a reservation insert. -/
theorem insertReservation_ok {strict : Bool} {db db' : DB} {o : String} {b : Nat}
    {q : Int} {st : ResStatus} (h : insertReservation strict db o b q st = .ok db') :
    db' = { db with
      reservations := db.reservations ++ [⟨db.nextReservationId, o, b, q, st⟩],
      nextReservationId := db.nextReservationId + 1 } := by
  unfold insertReservation at h
  split at h
  · cases h
  · split at h
    · cases h
    · exact (Except.ok.inj h).symm

/-- A strict reservation insert that succeeded found no existing
`(orderId, batchId)` row and a positive quantity. -/
theorem insertReservation_ok_true {db db' : DB} {o : String} {b : Nat} {q : Int}
    {st : ResStatus} (h : insertReservation true db o b q st = .ok db') :
    hasReservationFor db o b = false ∧ 0 < q := by
  unfold insertReservation at h
  split at h
  · cases h
  · next h1 =>
    split at h
    · cases h
    · next h2 =>
      rw [Bool.true_and] at h1 h2
      constructor
      · exact Bool.of_not_eq_true h1
      · have := Bool.of_not_eq_true h2
        simp at this
        exact this

theorem charListLe_total : ∀ (a b : List Char),
    charListLe a b = true ∨ charListLe b a = true := by
  intro a
  induction a with
  | nil => intro b; left; rfl
  | cons x xs ih =>
    intro b
    cases b with
    | nil => right; rfl
    | cons y ys =>
      rcases Nat.lt_trichotomy x.toNat y.toNat with h | h | h
      · left
        unfold charListLe
        rw [if_pos h]
      · have hxy : ¬ x.toNat < y.toNat := by omega
        have hyx : ¬ y.toNat < x.toNat := by omega
        rcases ih ys with h2 | h2
        · left
          unfold charListLe
          rw [if_neg hxy, if_neg hyx]
          exact h2
        · right
          unfold charListLe
          rw [if_neg hyx, if_neg hxy]
          exact h2
      · right
        unfold charListLe
        rw [if_pos h]

theorem charListLe_trans : ∀ (a b c : List Char),
    charListLe a b = true → charListLe b c = true → charListLe a c = true := by
  intro a
  induction a with
  | nil => intro b c _ _; rfl
  | cons x xs ih =>
    intro b c hab hbc
    cases b with
    | nil => cases hab
    | cons y ys =>
      cases c with
      | nil => cases hbc
      | cons z zs =>
        unfold charListLe at hab hbc ⊢
        by_cases h1 : x.toNat < y.toNat
        · rw [if_pos h1] at hab
          by_cases h2 : y.toNat < z.toNat
          · rw [if_pos (by omega : x.toNat < z.toNat)]
          · by_cases h3 : z.toNat < y.toNat
            · rw [if_pos h3, if_neg h2] at hbc
              cases hbc
            · rw [if_pos (by omega : x.toNat < z.toNat)]
        · by_cases h4 : y.toNat < x.toNat
          · rw [if_neg h1, if_pos h4] at hab
            cases hab
          · rw [if_neg h1, if_neg h4] at hab
            by_cases h2 : y.toNat < z.toNat
            · rw [if_pos (by omega : x.toNat < z.toNat)]
            · by_cases h3 : z.toNat < y.toNat
              · rw [if_pos h3, if_neg h2] at hbc
                cases hbc
              · rw [if_neg h2, if_neg h3] at hbc
                rw [if_neg (by omega : ¬ x.toNat < z.toNat),
                  if_neg (by omega : ¬ z.toNat < x.toNat)]
                exact ih ys zs hab hbc

instance : IsTotal Nat jsStrLe :=
  ⟨fun a b => charListLe_total (Nat.repr a).data (Nat.repr b).data⟩

instance : IsTrans Nat jsStrLe :=
  ⟨fun _ _ _ hab hbc => charListLe_trans _ _ _ hab hbc⟩

theorem mem_dedupFirstAux : ∀ (l seen : List Nat) (b : Nat),
    b ∈ dedupFirstAux seen l ↔ (b ∈ l ∧ b ∉ seen) := by
  intro l
  induction l with
  | nil => intro seen b; simp [dedupFirstAux]
  | cons x xs ih =>
    intro seen b
    unfold dedupFirstAux
    by_cases hx : x ∈ seen
    · rw [if_pos hx, ih seen b]
      constructor
      · rintro ⟨h1, h2⟩
        exact ⟨List.mem_cons_of_mem x h1, h2⟩
      · rintro ⟨h1, h2⟩
        rcases List.mem_cons.mp h1 with rfl | h1
        · exact absurd hx h2
        · exact ⟨h1, h2⟩
    · rw [if_neg hx]
      constructor
      · intro h
        rcases List.mem_cons.mp h with rfl | h
        · exact ⟨List.mem_cons_self _ _, hx⟩
        · rcases (ih (x :: seen) b).mp h with ⟨h1, h2⟩
          exact ⟨List.mem_cons_of_mem x h1,
            fun hc => h2 (List.mem_cons_of_mem x hc)⟩
      · rintro ⟨h1, h2⟩
        rcases List.mem_cons.mp h1 with rfl | h1
        · exact List.mem_cons_self _ _
        · by_cases hbx : b = x
          · subst hbx
            exact List.mem_cons_self _ _
          · refine List.mem_cons_of_mem x ((ih (x :: seen) b).mpr ⟨h1, ?_⟩)
            intro hc
            rcases List.mem_cons.mp hc with hc | hc
            · exact hbx hc
            · exact h2 hc

theorem nodup_dedupFirstAux : ∀ (l seen : List Nat), (dedupFirstAux seen l).Nodup := by
  intro l
  induction l with
  | nil => intro seen; exact List.nodup_nil
  | cons x xs ih =>
    intro seen
    unfold dedupFirstAux
    by_cases hx : x ∈ seen
    · rw [if_pos hx]
      exact ih seen
    · rw [if_neg hx]
      rw [List.nodup_cons]
      constructor
      · intro hc
        exact ((mem_dedupFirstAux xs (x :: seen) x).mp hc).2 (List.mem_cons_self _ _)
      · exact ih (x :: seen)

theorem mem_dedupFirst (l : List Nat) (b : Nat) : b ∈ dedupFirst l ↔ b ∈ l := by
  unfold dedupFirst
  rw [mem_dedupFirstAux]
  simp

theorem nodup_dedupFirst (l : List Nat) : (dedupFirst l).Nodup :=
  nodup_dedupFirstAux l []

theorem mem_jsSort (l : List Nat) (b : Nat) : b ∈ jsSort l ↔ b ∈ l :=
  (List.perm_insertionSort jsStrLe l).mem_iff

theorem nodup_jsSort {l : List Nat} (h : l.Nodup) : (jsSort l).Nodup :=
  ((List.perm_insertionSort jsStrLe l).nodup_iff).mpr h

theorem sorted_jsSort (l : List Nat) : List.Sorted jsStrLe (jsSort l) :=
  List.sorted_insertionSort jsStrLe l

/-- Membership in the Reserve lock set is membership among the requested
batch ids. -/
theorem mem_reserveLockIds (lines : List OrderLine) (b : Nat) :
    b ∈ reserveLockIds lines ↔ b ∈ lines.map (·.skuBatchId) := by
  unfold reserveLockIds
  rw [mem_jsSort, mem_dedupFirst]

theorem hasReservationFor_append {db db' : DB} {rnew : Reservation}
    (h : db'.reservations = db.reservations ++ [rnew]) (o : String) (b : Nat) :
    hasReservationFor db' o b =
      (hasReservationFor db o b || (rnew.orderId == o && rnew.skuBatchId == b)) := by
  unfold hasReservationFor
  rw [h, List.any_append]
  simp [List.any_cons, Bool.and_comm, @eq_comm _ o, @eq_comm _ b]

/-- Preservation of ids and of the invariant by the release loop. -/
theorem releaseApplyLoop_inv (init : Nat → Int) (o : String) (reason : Option String) :
    ∀ (rl : List Reservation) (db db' : DB),
      BatchIdsNodup db →
      LedgerInvariant init db →
      releaseApplyLoop true o reason rl db = .ok db' →
      LedgerInvariant init db' ∧ BatchIdsNodup db' := by
  intro rl
  induction rl with
  | nil =>
    intro db db' h1 h2 hok
    injection hok with h
    subst h
    exact ⟨h2, h1⟩
  | cons r rest ih =>
    intro db db' hnd hinv hok
    unfold releaseApplyLoop at hok
    cases h1 : incrBatchAvail true db r.skuBatchId r.quantity with
    | error e =>
      rw [h1, bindE_err] at hok
      cases hok
    | ok db1 =>
      rw [h1, bindE_ok] at hok
      have hdb1 : db1 = mapBatchAvail db r.skuBatchId (fun a => a + r.quantity) :=
        checkedMapAvail_ok h1
      subst hdb1
      refine ih _ db' ?_ ?_ hok
      · show ((insertEvent (setReservationCancelled _ _) _).batches.map (·.id)).Nodup
        rw [insertEvent_batches, setReservationCancelled_batches, appendLedger_batches,
          mapBatchAvail_ids]
        exact hnd
      · have hstep : LedgerInvariant init (appendLedger
            (mapBatchAvail db r.skuBatchId (fun a => a + r.quantity))
            (releaseLedgerEntry o r)) :=
          ledgerInvariant_paired_update rfl rfl (fun _ _ _ => rfl) hinv
        exact ledgerInvariant_congr
          (by rw [insertEvent_batches, setReservationCancelled_batches])
          (by rw [insertEvent_ledger, setReservationCancelled_ledger]) hstep

/-- `releaseInventoryForOrder` preserves the invariant. -/
theorem release_preserves_invariant {init : Nat → Int} {db db' : DB} {o : String}
    {reason : Option String} (hnd : BatchIdsNodup db) (hinv : LedgerInvariant init db)
    (hok : releaseInventoryForOrder true db o reason = .ok db') :
    LedgerInvariant init db' ∧ BatchIdsNodup db' := by
  unfold releaseInventoryForOrder at hok
  split at hok
  · cases hok
  · exact releaseApplyLoop_inv init o reason _ db db' hnd hinv hok

/-- The admin adjust handler preserves the invariant. -/
theorem adjust_preserves_invariant {init : Nat → Int} {db db' : DB} {i : Nat}
    {delta : Int} {reason : String} {newAvail : Int}
    (hnd : BatchIdsNodup db) (hinv : LedgerInvariant init db)
    (hok : adjustInventory true db i delta reason = .ok (db', newAvail)) :
    LedgerInvariant init db' ∧ BatchIdsNodup db' := by
  unfold adjustInventory at hok
  split at hok
  · cases hok
  · cases h1 : incrBatchAvail true db i delta with
    | error e =>
      rw [h1, bindE_err] at hok
      cases hok
    | ok db1 =>
      rw [h1, bindE_ok] at hok
      have hdb1 : db1 = mapBatchAvail db i (fun a => a + delta) := checkedMapAvail_ok h1
      subst hdb1
      injection hok with h
      have hfst := congrArg Prod.fst h
      simp only at hfst
      subst hfst
      constructor
      · exact ledgerInvariant_paired_update rfl rfl (fun r' _ _ => rfl) hinv
      · show ((appendLedger _ _).batches.map (·.id)).Nodup
        rw [appendLedger_batches, mapBatchAvail_ids]
        exact hnd

/-- The WMS reconciler preserves the invariant. -/
theorem reconcile_preserves_invariant {init : Nat → Int} {db db' : DB} {s : SnapshotRow}
    (hnd : BatchIdsNodup db) (hinv : LedgerInvariant init db)
    (hok : reconcileBatch true db s = .ok db') :
    LedgerInvariant init db' ∧ BatchIdsNodup db' := by
  have hsnap_nd : BatchIdsNodup (insertSnapshot db s) := by
    show ((insertSnapshot db s).batches.map (·.id)).Nodup
    rw [insertSnapshot_batches]
    exact hnd
  have hsnap_inv : LedgerInvariant init (insertSnapshot db s) :=
    ledgerInvariant_congr (insertSnapshot_batches db s) (insertSnapshot_ledger db s) hinv
  unfold reconcileBatch at hok
  split at hok
  · injection hok with h
    subst h
    exact ⟨hsnap_inv, hsnap_nd⟩
  · split at hok
    · injection hok with h
      subst h
      exact ⟨hsnap_inv, hsnap_nd⟩
    · next b hfb =>
      split at hok
      · injection hok with h
        subst h
        exact ⟨hsnap_inv, hsnap_nd⟩
      · cases h1 : setBatchAvail true (insertSnapshot db s) (s.skuBatchId.getD 0)
            s.reportedOrderable with
        | error e =>
          rw [h1, bindE_err] at hok
          cases hok
        | ok db1 =>
          rw [h1, bindE_ok] at hok
          injection hok with h
          subst h
          have hdb1 : db1 = mapBatchAvail (insertSnapshot db s) (s.skuBatchId.getD 0)
              (fun _ => s.reportedOrderable) := checkedMapAvail_ok h1
          subst hdb1
          have hg : ∀ r ∈ (insertSnapshot db s).batches, r.id = s.skuBatchId.getD 0 →
              (fun _ : Int => s.reportedOrderable) r.availableQuantity =
                r.availableQuantity + (s.reportedOrderable - b.availableQuantity) := by
            intro r hr hid
            have hrb : r = b := mem_eq_of_findBatch hsnap_nd hfb hr hid
            subst hrb
            show s.reportedOrderable = r.availableQuantity + (s.reportedOrderable -
              r.availableQuantity)
            ring
          have hstep : LedgerInvariant init (appendLedger
              (mapBatchAvail (insertSnapshot db s) (s.skuBatchId.getD 0)
                (fun _ => s.reportedOrderable))
              ⟨s.skuBatchId.getD 0, .ADJUSTMENT, s.reportedOrderable - b.availableQuantity,
                .WMS_SYNC, some s.wmsSkuBatchId,
                some (.prevNew b.availableQuantity s.reportedOrderable)⟩) :=
            ledgerInvariant_paired_update rfl rfl hg hsnap_inv
          constructor
          · exact ledgerInvariant_congr (by rw [insertEvent_batches])
              (by rw [insertEvent_ledger]) hstep
          · show ((insertEvent (appendLedger _ _) _).batches.map (·.id)).Nodup
            rw [insertEvent_batches, appendLedger_batches, mapBatchAvail_ids]
            exact hsnap_nd

theorem getAvail_congr {db db' : DB} (h : db'.batches = db.batches) (b : Nat) :
    getAvail db' b = getAvail db b := by
  unfold getAvail findBatch
  rw [h]

/-- Preservation of the invariant by the reserve apply loop under the live
constraints.  The availability-map hypothesis ties the value read at lock
time to the current row of every batch not yet reserved for this order; the
unique `(order_id, sku_batch_id)` constraint guarantees that on a successful
run each batch is written at most once, so the stale-map write equals a
paired relative update. -/
theorem reserveApplyLoop_inv (init : Nat → Int) (o : String) (m : Nat → Option Int) :
    ∀ (lines : List OrderLine) (db db' : DB),
      BatchIdsNodup db →
      LedgerInvariant init db →
      (∀ b v, m b = some v → hasReservationFor db o b = false → getAvail db b = some v) →
      reserveApplyLoop true o m lines db = .ok db' →
      LedgerInvariant init db' ∧ BatchIdsNodup db' := by
  intro lines
  induction lines with
  | nil =>
    intro db db' h1 h2 _ hok
    injection hok with h
    subst h
    exact ⟨h2, h1⟩
  | cons line rest ih =>
    intro db db' hnd hinv hm hok
    unfold reserveApplyLoop at hok
    cases h1 : setBatchAvail true db line.skuBatchId
        ((m line.skuBatchId).getD 0 - line.quantity) with
    | error e =>
      rw [h1, bindE_err] at hok
      cases hok
    | ok db1 =>
      rw [h1, bindE_ok] at hok
      have hdb1 : db1 = mapBatchAvail db line.skuBatchId
          (fun _ => (m line.skuBatchId).getD 0 - line.quantity) := checkedMapAvail_ok h1
      cases h3 : insertReservation true (appendLedger db1 (allocLedgerEntry o line)) o
          line.skuBatchId line.quantity .PENDING with
      | error e =>
        rw [h3, bindE_err] at hok
        cases hok
      | ok db3 =>
        rw [h3, bindE_ok] at hok
        obtain ⟨hres2, hqpos⟩ := insertReservation_ok_true h3
        have hres : hasReservationFor db o line.skuBatchId = false := by
          have hsame : (appendLedger db1 (allocLedgerEntry o line)).reservations =
              db.reservations := by
            rw [appendLedger_reservations, hdb1, mapBatchAvail_reservations]
          unfold hasReservationFor at hres2 ⊢
          rw [hsame] at hres2
          exact hres2
        have hdb3 := insertReservation_ok h3
        have hinv2 : LedgerInvariant init (appendLedger db1 (allocLedgerEntry o line)) := by
          subst hdb1
          cases hmb : m line.skuBatchId with
          | some v =>
            have hget : getAvail db line.skuBatchId = some v := hm _ _ hmb hres
            cases hfb : findBatch db line.skuBatchId with
            | none =>
              unfold getAvail at hget
              rw [hfb] at hget
              cases hget
            | some r0 =>
              have hr0v : r0.availableQuantity = v := by
                unfold getAvail at hget
                rw [hfb] at hget
                exact Option.some.inj hget
              refine ledgerInvariant_paired_update rfl rfl ?_ hinv
              intro r hr hid
              have hid' : r.id = line.skuBatchId := hid
              have hrr : r = r0 := mem_eq_of_findBatch hnd hfb hr hid'
              subst hrr
              show v - line.quantity = r.availableQuantity + (-line.quantity)
              rw [hr0v]
              ring
          | none =>
            cases hfb : findBatch db line.skuBatchId with
            | some r0 =>
              exfalso
              have hcon := checkedMapAvail_ok_constraints h1
              have hr0 : r0 ∈ db.batches := List.mem_of_find?_eq_some hfb
              have hr0id : r0.id = line.skuBatchId := findBatch_id hfb
              have hmem2 : ({ r0 with availableQuantity :=
                  (m line.skuBatchId).getD 0 - line.quantity } : Batch) ∈
                  (mapBatchAvail db line.skuBatchId
                    (fun _ => (m line.skuBatchId).getD 0 - line.quantity)).batches := by
                refine List.mem_map.mpr ⟨r0, hr0, ?_⟩
                show (if r0.id = line.skuBatchId then
                  { r0 with availableQuantity :=
                      (m line.skuBatchId).getD 0 - line.quantity } else r0) = _
                rw [if_pos hr0id]
              have hok2 := hcon _ hmem2 hr0id
              rw [hmb] at hok2
              unfold batchConstraintsOk at hok2
              simp only [Bool.and_eq_true, decide_eq_true_eq, Option.getD_none] at hok2
              omega
            | none =>
              refine ledgerInvariant_paired_update rfl rfl ?_ hinv
              intro r hr hid
              exfalso
              have hid' : r.id = line.skuBatchId := hid
              have hno := List.find?_eq_none.mp hfb r hr
              simp only [beq_iff_eq] at hno
              exact hno hid'
        have hinv3 : LedgerInvariant init db3 := by
          rw [hdb3]
          exact ledgerInvariant_congr rfl rfl hinv2
        have hnd3 : BatchIdsNodup db3 := by
          rw [hdb3]
          show ((appendLedger db1 (allocLedgerEntry o line)).batches.map (·.id)).Nodup
          rw [appendLedger_batches, hdb1, mapBatchAvail_ids]
          exact hnd
        have hrs3 : db3.reservations = db.reservations ++
            [⟨(appendLedger db1 (allocLedgerEntry o line)).nextReservationId, o,
              line.skuBatchId, line.quantity, .PENDING⟩] := by
          rw [hdb3]
          show (appendLedger db1 (allocLedgerEntry o line)).reservations ++ _ = _
          rw [appendLedger_reservations, hdb1, mapBatchAvail_reservations]
        have hbat3 : db3.batches = (mapBatchAvail db line.skuBatchId
            (fun _ => (m line.skuBatchId).getD 0 - line.quantity)).batches := by
          rw [hdb3]
          show (appendLedger db1 (allocLedgerEntry o line)).batches = _
          rw [appendLedger_batches, hdb1]
        refine ih _ db' ?_ ?_ ?_ hok
        · show ((insertEvent db3 _).batches.map (·.id)).Nodup
          rw [insertEvent_batches]
          exact hnd3
        · exact ledgerInvariant_congr (insertEvent_batches db3 _) (insertEvent_ledger db3 _)
            hinv3
        · intro b v hmbv hres4
          have hres3 : hasReservationFor db3 o b = false := by
            unfold hasReservationFor at hres4 ⊢
            rw [insertEvent_reservations] at hres4
            exact hres4
          have hsplit := hasReservationFor_append hrs3 o b
          rw [hres3] at hsplit
          have hparts := (Bool.or_eq_false_iff).mp hsplit.symm
          have hresdb : hasReservationFor db o b = false := hparts.1
          have hbne : ¬ b = line.skuBatchId := by
            have h2 := hparts.2
            simp only [Bool.and_eq_false_iff, beq_eq_false_iff_ne] at h2
            rcases h2 with h2 | h2
            · exact absurd rfl h2
            · intro hc
              exact h2 hc.symm
          have hget := hm b v hmbv hresdb
          have hgb : getAvail (insertEvent db3 ⟨"InventoryAllocated",
              .allocated o line.skuBatchId line.quantity⟩) b =
              getAvail (mapBatchAvail db line.skuBatchId
                (fun _ => (m line.skuBatchId).getD 0 - line.quantity)) b := by
            apply getAvail_congr
            rw [insertEvent_batches]
            exact hbat3
          rw [hgb, getAvail_mapBatchAvail, if_neg hbne]
          exact hget

/-- `reserveInventoryForOrder` preserves the invariant. -/
theorem reserve_preserves_invariant {init : Nat → Int} {db db' : DB} {o : String}
    {lines : List OrderLine} (hnd : BatchIdsNodup db) (hinv : LedgerInvariant init db)
    (hok : reserveInventoryForOrder true db o lines = .ok db') :
    LedgerInvariant init db' ∧ BatchIdsNodup db' := by
  unfold reserveInventoryForOrder at hok
  split at hok
  · cases hok
  · split at hok
    · cases hok
    · cases hval : validateLines (batchMapOf db (reserveLockIds lines)) lines with
      | error e =>
        rw [hval, bindE_err] at hok
        cases hok
      | ok u =>
        rw [hval, bindE_ok] at hok
        refine reserveApplyLoop_inv init o _ lines db db' hnd hinv ?_ hok
        intro b v hmb _
        unfold batchMapOf at hmb
        split at hmb
        · exact hmb
        · cases hmb

/-- Each committed operation preserves the invariant and well-formedness. -/
theorem applyOp_preserves_invariant {init : Nat → Int} {db : DB} (op : Op)
    (hnd : BatchIdsNodup db) (hinv : LedgerInvariant init db) :
    LedgerInvariant init (applyOp db op) ∧ BatchIdsNodup (applyOp db op) := by
  cases op with
  | reserve o lines =>
    cases h : reserveInventoryForOrder true db o lines with
    | ok db' =>
      have he : applyOp db (.reserve o lines) = db' := by
        show commit db (reserveInventoryForOrder true db o lines) = db'
        rw [h]
        rfl
      rw [he]
      exact reserve_preserves_invariant hnd hinv h
    | error e =>
      have he : applyOp db (.reserve o lines) = db := by
        show commit db (reserveInventoryForOrder true db o lines) = db
        rw [h]
        rfl
      rw [he]
      exact ⟨hinv, hnd⟩
  | release o reason =>
    cases h : releaseInventoryForOrder true db o reason with
    | ok db' =>
      have he : applyOp db (.release o reason) = db' := by
        show commit db (releaseInventoryForOrder true db o reason) = db'
        rw [h]
        rfl
      rw [he]
      exact release_preserves_invariant hnd hinv h
    | error e =>
      have he : applyOp db (.release o reason) = db := by
        show commit db (releaseInventoryForOrder true db o reason) = db
        rw [h]
        rfl
      rw [he]
      exact ⟨hinv, hnd⟩
  | adjust i delta reason =>
    cases h : adjustInventory true db i delta reason with
    | ok p =>
      rcases p with ⟨db', n⟩
      have he : applyOp db (.adjust i delta reason) = db' := by
        show commit db ((adjustInventory true db i delta reason).map Prod.fst) = db'
        rw [h]
        rfl
      rw [he]
      exact adjust_preserves_invariant hnd hinv h
    | error e =>
      have he : applyOp db (.adjust i delta reason) = db := by
        show commit db ((adjustInventory true db i delta reason).map Prod.fst) = db
        rw [h]
        rfl
      rw [he]
      exact ⟨hinv, hnd⟩
  | reconcile s =>
    cases h : reconcileBatch true db s with
    | ok db' =>
      have he : applyOp db (.reconcile s) = db' := by
        show commit db (reconcileBatch true db s) = db'
        rw [h]
        rfl
      rw [he]
      exact reconcile_preserves_invariant hnd hinv h
    | error e =>
      have he : applyOp db (.reconcile s) = db := by
        show commit db (reconcileBatch true db s) = db
        rw [h]
        rfl
      rw [he]
      exact ⟨hinv, hnd⟩

theorem applyOps_preserves_invariant (init : Nat → Int) :
    ∀ (ops : List Op) (db : DB), BatchIdsNodup db → LedgerInvariant init db →
      LedgerInvariant init (applyOps db ops) ∧ BatchIdsNodup (applyOps db ops) := by
  intro ops
  induction ops with
  | nil => intro db h1 h2; exact ⟨h2, h1⟩
  | cons op rest ih =>
    intro db h1 h2
    have hstep := applyOp_preserves_invariant op h1 h2
    exact ih (applyOp db op) hstep.2 hstep.1

/-- A strict checked update succeeds when every row it touches still satisfies
the schema constraints afterwards. -/
theorem checkedMapAvail_ok_of_constraints {db : DB} {i : Nat} {g : Int → Int}
    (h : ∀ r ∈ db.batches, r.id = i →
      batchConstraintsOk { r with availableQuantity := g r.availableQuantity } = true) :
    checkedMapAvail true db i g = .ok (mapBatchAvail db i g) := by
  have hany : ((mapBatchAvail db i g).batches.any
      (fun b => b.id == i && !(batchConstraintsOk b))) = false := by
    rw [List.any_eq_false]
    intro x hx
    rcases List.mem_map.mp hx with ⟨r, hr, rfl⟩
    by_cases hid : r.id = i
    · rw [if_pos hid]
      have hh := h r hr hid
      simp [hh]
    · rw [if_neg hid]
      simp [hid]
  unfold checkedMapAvail
  rw [hany]
  rfl

/-- A strict reservation insert succeeds for a fresh `(orderId, batchId)` pair
and a positive quantity. -/
theorem insertReservation_ok_of {db : DB} {o : String} {b : Nat} {q : Int}
    {st : ResStatus} (h1 : hasReservationFor db o b = false) (h2 : 0 < q) :
    insertReservation true db o b q st = .ok { db with
      reservations := db.reservations ++ [⟨db.nextReservationId, o, b, q, st⟩],
      nextReservationId := db.nextReservationId + 1 } := by
  have h3 : decide (q ≤ 0) = false := decide_eq_false (not_le.mpr h2)
  unfold insertReservation
  rw [h1, h3]
  rfl

/-- Unfolding of `reserveInventoryForOrder` past the two input validations. -/
theorem reserve_eq_of_valid (strict : Bool) (db : DB) (o : String) (lines : List OrderLine)
    (hne : lines ≠ []) (hfq : lines.find? (fun l => decide (l.quantity ≤ 0)) = none) :
    reserveInventoryForOrder strict db o lines =
      (validateLines (batchMapOf db (reserveLockIds lines)) lines >>= fun _ =>
        reserveApplyLoop strict o (batchMapOf db (reserveLockIds lines)) lines db) := by
  have hie : lines.isEmpty = false := by
    cases lines
    · exact absurd rfl hne
    · rfl
  unfold reserveInventoryForOrder
  rw [hie, hfq]
  rfl

/-- The availability map on a singleton lock set. -/
theorem batchMapOf_singleton (db : DB) (b : Nat) :
    batchMapOf db [b] b = getAvail db b := by
  unfold batchMapOf
  rw [if_pos (List.mem_singleton.mpr rfl)]

/-- C4: Reserve rejects an empty line list and any non-positive quantity with
`INVALID_QUANTITY`; a single-line request for exactly the available quantity
succeeds and leaves the batch at zero; a request for one more unit fails with
`INSUFFICIENT_INVENTORY` carrying `(batchId, requested, available)` and, the
transaction rolling back, mutates nothing. -/
theorem c4_reserve_boundary_behaviour (db : DB) (o : String) (b : Nat) (bb : Batch)
    (lines : List OrderLine) (l : OrderLine)
    (hnd : BatchIdsNodup db) (hfind : findBatch db b = some bb)
    (hbok : batchConstraintsOk bb = true) (h0 : 0 < bb.availableQuantity)
    (hres : hasReservationFor db o b = false) :
    reserveInventoryForOrder true db o [] =
        .error (.invalidQuantity "Order must have at least one line") ∧
      (l ∈ lines → l.quantity ≤ 0 →
        ∃ msg, reserveInventoryForOrder true db o lines = .error (.invalidQuantity msg)) ∧
      (∃ db', reserveInventoryForOrder true db o [⟨b, bb.availableQuantity⟩] = .ok db' ∧
        getAvail db' b = some 0) ∧
      (reserveInventoryForOrder true db o [⟨b, bb.availableQuantity + 1⟩] =
          .error (.insufficientInventory b (bb.availableQuantity + 1)
            bb.availableQuantity) ∧
        commit db (reserveInventoryForOrder true db o [⟨b, bb.availableQuantity + 1⟩]) =
          db) := by
  have hA0 : 0 ≤ bb.availableQuantity := le_of_lt h0
  have hcon := hbok
  unfold batchConstraintsOk at hcon
  simp only [Bool.and_eq_true, decide_eq_true_eq] at hcon
  refine ⟨rfl, ?_, ?_, ?_⟩
  · intro hl hq
    have hie : lines.isEmpty = false := by
      cases lines
      · cases hl
      · rfl
    unfold reserveInventoryForOrder
    rw [hie]
    cases hf : lines.find? (fun l => decide (l.quantity ≤ 0)) with
    | none =>
      exfalso
      have hno := List.find?_eq_none.mp hf l hl
      simp only [decide_eq_true_eq] at hno
      exact hno hq
    | some l' => exact ⟨_, rfl⟩
  · -- exact availability succeeds and zeroes the batch
    have hfq : ([⟨b, bb.availableQuantity⟩] : List OrderLine).find?
        (fun l => decide (l.quantity ≤ 0)) = none := by
      rw [List.find?_cons_of_neg _ (by simp only [decide_eq_true_eq]; exact not_le.mpr h0)]
      rfl
    have hm1 : batchMapOf db (reserveLockIds [(⟨b, bb.availableQuantity⟩ : OrderLine)]) b =
        some bb.availableQuantity := by
      show batchMapOf db [b] b = some bb.availableQuantity
      rw [batchMapOf_singleton]
      unfold getAvail
      rw [hfind]
      rfl
    have hval : validateLines
        (batchMapOf db (reserveLockIds [(⟨b, bb.availableQuantity⟩ : OrderLine)]))
        [⟨b, bb.availableQuantity⟩] = .ok () := by
      unfold validateLines
      rw [hm1]
      dsimp only
      rw [if_neg (lt_irrefl bb.availableQuantity)]
      rfl
    have hset : setBatchAvail true db b
        ((batchMapOf db (reserveLockIds [(⟨b, bb.availableQuantity⟩ : OrderLine)]) b).getD 0 -
          bb.availableQuantity) =
        .ok (mapBatchAvail db b (fun _ =>
          (batchMapOf db (reserveLockIds [(⟨b, bb.availableQuantity⟩ : OrderLine)]) b).getD 0 -
            bb.availableQuantity)) := by
      apply checkedMapAvail_ok_of_constraints
      intro r hr hid
      have hrr : r = bb := mem_eq_of_findBatch hnd hfind hr hid
      subst hrr
      rw [hm1]
      unfold batchConstraintsOk
      simp only [Bool.and_eq_true, decide_eq_true_eq, Option.getD_some]
      refine ⟨⟨⟨by omega, by omega⟩, hcon.1.2⟩, hcon.2⟩
    have hresA : hasReservationFor
        (appendLedger (mapBatchAvail db b (fun _ =>
          (batchMapOf db (reserveLockIds [(⟨b, bb.availableQuantity⟩ : OrderLine)]) b).getD 0 -
            bb.availableQuantity))
          (allocLedgerEntry o ⟨b, bb.availableQuantity⟩)) o b = false := by
      unfold hasReservationFor
      rw [appendLedger_reservations, mapBatchAvail_reservations]
      exact hres
    have hins := @insertReservation_ok_of _ _ _ _ .PENDING hresA h0
    rw [reserve_eq_of_valid true db o _ (by intro hc; cases hc) hfq, hval, bindE_ok]
    unfold reserveApplyLoop
    rw [hset, bindE_ok, hins, bindE_ok]
    refine ⟨_, rfl, ?_⟩
    show getAvail (mapBatchAvail db b (fun _ =>
      (batchMapOf db (reserveLockIds [(⟨b, bb.availableQuantity⟩ : OrderLine)]) b).getD 0 -
        bb.availableQuantity)) b = some 0
    have hga : getAvail db b = some bb.availableQuantity := getAvail_eq_of_find hfind
    rw [getAvail_mapBatchAvail, if_pos rfl, hga, hm1]
    show some ((some bb.availableQuantity).getD 0 - bb.availableQuantity) = some 0
    simp
  · -- one more than available fails without mutation
    have hfq : ([⟨b, bb.availableQuantity + 1⟩] : List OrderLine).find?
        (fun l => decide (l.quantity ≤ 0)) = none := by
      rw [List.find?_cons_of_neg _ (by simp only [decide_eq_true_eq]; omega)]
      rfl
    have hm1 : batchMapOf db (reserveLockIds [(⟨b, bb.availableQuantity + 1⟩ : OrderLine)])
        b = some bb.availableQuantity := by
      show batchMapOf db [b] b = some bb.availableQuantity
      rw [batchMapOf_singleton]
      unfold getAvail
      rw [hfind]
      rfl
    have herr : reserveInventoryForOrder true db o [⟨b, bb.availableQuantity + 1⟩] =
        .error (.insufficientInventory b (bb.availableQuantity + 1)
          bb.availableQuantity) := by
      rw [reserve_eq_of_valid true db o _ (by intro hc; cases hc) hfq]
      unfold validateLines
      rw [hm1]
      dsimp only
      rw [if_pos (by omega : bb.availableQuantity < bb.availableQuantity + 1)]
      rfl
    refine ⟨herr, ?_⟩
    rw [herr]
    rfl

/-- C8: for every snapshot entry, reconciliation persists the snapshot row;
with no (truthy) local batch id nothing else changes; with a matched batch and
zero delta nothing further changes; with a non-zero delta (within the schema
constraints) the batch is set to the reported value and exactly one
`ADJUSTMENT` ledger row (source `WMS_SYNC`, reference the WMS batch id,
metadata previous/new) and exactly one `InventoryAdjusted` event are written. -/
theorem c8_reconcile_snapshot (db : DB) (s : SnapshotRow) (b : Nat) (bb : Batch)
    (hnd : BatchIdsNodup db) :
    (s.skuBatchId.getD 0 = 0 → reconcileBatch true db s = .ok (insertSnapshot db s)) ∧
      (s.skuBatchId = some b → ¬ b = 0 → findBatch db b = some bb →
        (bb.availableQuantity = s.reportedOrderable →
          reconcileBatch true db s = .ok (insertSnapshot db s)) ∧
        (¬ bb.availableQuantity = s.reportedOrderable →
          0 ≤ s.reportedOrderable → s.reportedOrderable ≤ bb.totalQuantity →
          batchConstraintsOk bb = true →
          ∃ db', reconcileBatch true db s = .ok db' ∧
            getAvail db' b = some s.reportedOrderable ∧
            db'.snapshots = db.snapshots ++ [s] ∧
            db'.ledger = db.ledger ++
              [⟨b, .ADJUSTMENT, s.reportedOrderable - bb.availableQuantity, .WMS_SYNC,
                some s.wmsSkuBatchId,
                some (.prevNew bb.availableQuantity s.reportedOrderable)⟩] ∧
            db'.events = db.events ++
              [⟨"InventoryAdjusted", .adjusted b (s.reportedOrderable - bb.availableQuantity)
                s.reportedOrderable "WMS_SYNC" "WMS reconciliation"⟩])) := by
  constructor
  · intro h0
    unfold reconcileBatch
    rw [if_pos h0]
  · intro hsb hb0 hfb
    have hg0 : s.skuBatchId.getD 0 = b := by rw [hsb]; rfl
    have hcond : ¬ s.skuBatchId.getD 0 = 0 := by rw [hg0]; exact hb0
    have hfb2 : findBatch (insertSnapshot db s) (s.skuBatchId.getD 0) = some bb := by
      rw [hg0]
      show (insertSnapshot db s).batches.find? (fun r => r.id == b) = some bb
      rw [insertSnapshot_batches]
      exact hfb
    constructor
    · intro heq
      unfold reconcileBatch
      rw [if_neg hcond, hfb2]
      dsimp only
      rw [if_pos (by rw [heq]; exact sub_self _)]
    · intro hne h0r hler hbok
      have hcon := hbok
      unfold batchConstraintsOk at hcon
      simp only [Bool.and_eq_true, decide_eq_true_eq] at hcon
      have hset : setBatchAvail true (insertSnapshot db s) (s.skuBatchId.getD 0)
          s.reportedOrderable = .ok (mapBatchAvail (insertSnapshot db s)
            (s.skuBatchId.getD 0) (fun _ => s.reportedOrderable)) := by
        apply checkedMapAvail_ok_of_constraints
        intro r hr hid
        rw [insertSnapshot_batches] at hr
        rw [hg0] at hid
        have hrr : r = bb := mem_eq_of_findBatch hnd hfb hr hid
        subst hrr
        unfold batchConstraintsOk
        simp only [Bool.and_eq_true, decide_eq_true_eq]
        exact ⟨⟨⟨h0r, hler⟩, hcon.1.2⟩, hcon.2⟩
      have hdne : ¬ s.reportedOrderable - bb.availableQuantity = 0 := by
        intro hc
        exact hne (by omega)
      unfold reconcileBatch
      rw [if_neg hcond, hfb2]
      dsimp only
      rw [if_neg hdne, hset, bindE_ok]
      refine ⟨_, rfl, ?_, rfl, ?_, ?_⟩
      · show getAvail (mapBatchAvail (insertSnapshot db s) (s.skuBatchId.getD 0)
          (fun _ => s.reportedOrderable)) b = some s.reportedOrderable
        have hga : getAvail (insertSnapshot db s) b = some bb.availableQuantity := by
          show ((insertSnapshot db s).batches.find? (fun r => r.id == b)).map
            (·.availableQuantity) = some bb.availableQuantity
          rw [insertSnapshot_batches]
          exact getAvail_eq_of_find hfb
        rw [getAvail_mapBatchAvail, if_pos hg0.symm, hga]
        rfl
      · show db.ledger ++ [⟨s.skuBatchId.getD 0, .ADJUSTMENT,
          s.reportedOrderable - bb.availableQuantity, .WMS_SYNC, some s.wmsSkuBatchId,
          some (.prevNew bb.availableQuantity s.reportedOrderable)⟩] = _
        rw [hg0]
      · show db.events ++ [⟨"InventoryAdjusted",
          .adjusted (s.skuBatchId.getD 0) (s.reportedOrderable - bb.availableQuantity)
            s.reportedOrderable "WMS_SYNC" "WMS reconciliation"⟩] = _
        rw [hg0]

/-- A strict checked update fails on a row that would violate the schema
constraints. -/
theorem checkedMapAvail_err_of {db : DB} {i : Nat} {g : Int → Int} {r : Batch}
    (hr : r ∈ db.batches) (hid : r.id = i)
    (hbad : batchConstraintsOk
      { r with availableQuantity := g r.availableQuantity } = false) :
    checkedMapAvail true db i g = .error .checkViolation := by
  have hany : ((mapBatchAvail db i g).batches.any
      (fun b => b.id == i && !(batchConstraintsOk b))) = true := by
    rw [List.any_eq_true]
    refine ⟨{ r with availableQuantity := g r.availableQuantity }, ?_, ?_⟩
    · refine List.mem_map.mpr ⟨r, hr, ?_⟩
      show (if r.id = i then
        { r with availableQuantity := g r.availableQuantity } else r) = _
      rw [if_pos hid]
    · have hbid : ((({ r with availableQuantity := g r.availableQuantity } : Batch).id ==
          i)) = true := by
        show (r.id == i) = true
        simp [hid]
      rw [hbid, hbad]
      rfl
  unfold checkedMapAvail
  rw [hany]
  rfl

/-- State used by the concrete counterexamples around manual adjustment. -/
def c7db : DB := ⟨[⟨1, 100, 0, 100⟩], [], [], [], [], 0⟩

/-- C7 counterexample: a successful `/admin/inventory/adjust` writes no
`InventoryAdjusted` outbox event at all (the handler inserts only the ledger
row), and a delta that violates the batch check constraints surfaces as
`INTERNAL_ERROR`, not `INVALID_QUANTITY`. -/
theorem c7_adjust_counterexample :
    (adjustInventory true c7db 1 (-10) "correction").map
        (fun p => ((p.1.events.filter (fun e => e.type == "InventoryAdjusted")).length, p.2)) =
      .ok (0, 90) ∧
    adjustInventory true c7db 1 (-200) "overdraw" = .error .checkViolation ∧
    errorCode .checkViolation = "INTERNAL_ERROR" :=
  ⟨rfl, rfl, rfl⟩

/-- C7 (amended): a successful Adjust changes `availableQuantity` by exactly
`delta` and appends one `ADJUSTMENT` ledger row (source `MANUAL_ADJUSTMENT`,
reference `'ADMIN_API'`, metadata the reason) in the same transaction, but no
outbox event; a delta that would violate non-negativity or
`available ≤ total` fails as a constraint violation surfaced as
`INTERNAL_ERROR` with no state change. -/
theorem c7_adjust_amended (db : DB) (i : Nat) (delta : Int) (reason : String) (bb : Batch)
    (hnd : BatchIdsNodup db) (hfind : findBatch db i = some bb) :
    (batchConstraintsOk { bb with availableQuantity := bb.availableQuantity + delta } =
        true →
      ∃ db', adjustInventory true db i delta reason =
          .ok (db', bb.availableQuantity + delta) ∧
        getAvail db' i = some (bb.availableQuantity + delta) ∧
        db'.ledger = db.ledger ++ [adjustLedgerEntry i delta reason] ∧
        db'.events = db.events ∧ db'.reservations = db.reservations) ∧
    (batchConstraintsOk { bb with availableQuantity := bb.availableQuantity + delta } =
        false →
      adjustInventory true db i delta reason = .error .checkViolation ∧
      errorCode .checkViolation = "INTERNAL_ERROR" ∧
      commit db ((adjustInventory true db i delta reason).map Prod.fst) = db) := by
  constructor
  · intro hokc
    have hincr : incrBatchAvail true db i delta =
        .ok (mapBatchAvail db i (fun a => a + delta)) := by
      apply checkedMapAvail_ok_of_constraints
      intro r hr hid
      have hrr : r = bb := mem_eq_of_findBatch hnd hfind hr hid
      subst hrr
      exact hokc
    unfold adjustInventory
    rw [hfind]
    dsimp only
    rw [hincr, bindE_ok]
    refine ⟨_, rfl, ?_, rfl, rfl, rfl⟩
    show getAvail (mapBatchAvail db i (fun a => a + delta)) i =
      some (bb.availableQuantity + delta)
    rw [getAvail_mapBatchAvail, if_pos rfl, getAvail_eq_of_find hfind]
    rfl
  · intro hbad
    have hincr : incrBatchAvail true db i delta = .error .checkViolation :=
      checkedMapAvail_err_of (List.mem_of_find?_eq_some hfind) (findBatch_id hfind) hbad
    have herr : adjustInventory true db i delta reason = .error .checkViolation := by
      unfold adjustInventory
      rw [hfind]
      dsimp only
      rw [hincr, bindE_err]
    refine ⟨herr, rfl, ?_⟩
    rw [herr]
    rfl

/-- The last line of a request that touches a given batch, if any. -/
def lastLineFor (b : Nat) : List OrderLine → Option OrderLine
  | [] => none
  | l :: rest =>
    match lastLineFor b rest with
    | some l' => some l'
    | none => if l.skuBatchId == b then some l else none

theorem lastLineFor_eq_none {b : Nat} :
    ∀ {lines : List OrderLine}, lastLineFor b lines = none →
      ∀ l ∈ lines, ¬ l.skuBatchId = b := by
  intro lines
  induction lines with
  | nil => intro _ l hl; cases hl
  | cons x rest ih =>
    intro h l hl
    unfold lastLineFor at h
    cases hrest : lastLineFor b rest with
    | some l' =>
      rw [hrest] at h
      cases h
    | none =>
      rw [hrest] at h
      rcases List.mem_cons.mp hl with rfl | hl
      · intro hc
        rw [if_pos (by simpa using hc)] at h
        cases h
      · exact ih hrest l hl

theorem lastLineFor_some {b : Nat} :
    ∀ {lines : List OrderLine} {l : OrderLine}, lastLineFor b lines = some l →
      l ∈ lines ∧ l.skuBatchId = b := by
  intro lines
  induction lines with
  | nil => intro l h; cases h
  | cons x rest ih =>
    intro l h
    unfold lastLineFor at h
    cases hrest : lastLineFor b rest with
    | some l' =>
      rw [hrest] at h
      injection h with h
      subst h
      obtain ⟨h1, h2⟩ := ih hrest
      exact ⟨List.mem_cons_of_mem x h1, h2⟩
    | none =>
      rw [hrest] at h
      by_cases hx : (x.skuBatchId == b) = true
      · rw [if_pos hx] at h
        injection h with h
        subst h
        exact ⟨List.mem_cons_self _ _, by simpa using hx⟩
      · rw [if_neg hx] at h
        cases h

/-- The non-strict loop (the unit-test client) never fails: it issues its
writes unconditionally.  Its result appends one `ORDER_ALLOCATE` ledger row
per line in input order, and leaves each touched batch at the value computed
from the lock-time map and the last line touching it — the in-memory map is
never decremented between lines. -/
theorem reserveApplyLoop_false_total (o : String) (m : Nat → Option Int) :
    ∀ (lines : List OrderLine) (db : DB), ∃ db',
      reserveApplyLoop false o m lines db = .ok db' ∧
      db'.ledger = db.ledger ++ lines.map (allocLedgerEntry o) ∧
      (∀ b : Nat, b ∉ lines.map (·.skuBatchId) → getAvail db' b = getAvail db b) ∧
      (∀ (b : Nat) (l : OrderLine), lastLineFor b lines = some l →
        getAvail db' b = (getAvail db b).map (fun _ => (m b).getD 0 - l.quantity)) := by
  intro lines
  induction lines with
  | nil =>
    intro db
    refine ⟨db, rfl, by simp, fun b _ => rfl, fun b l h => by cases h⟩
  | cons line rest ih =>
    intro db
    obtain ⟨db', hloop, hledger, hunused, hlast⟩ := ih (insertEvent
      { appendLedger (mapBatchAvail db line.skuBatchId
            (fun _ => (m line.skuBatchId).getD 0 - line.quantity))
          (allocLedgerEntry o line) with
        reservations := (appendLedger (mapBatchAvail db line.skuBatchId
            (fun _ => (m line.skuBatchId).getD 0 - line.quantity))
          (allocLedgerEntry o line)).reservations ++
          [⟨(appendLedger (mapBatchAvail db line.skuBatchId
              (fun _ => (m line.skuBatchId).getD 0 - line.quantity))
            (allocLedgerEntry o line)).nextReservationId, o, line.skuBatchId,
            line.quantity, .PENDING⟩],
        nextReservationId := (appendLedger (mapBatchAvail db line.skuBatchId
            (fun _ => (m line.skuBatchId).getD 0 - line.quantity))
          (allocLedgerEntry o line)).nextReservationId + 1 }
      ⟨"InventoryAllocated", .allocated o line.skuBatchId line.quantity⟩)
    refine ⟨db', ?_, ?_, ?_, ?_⟩
    · show (setBatchAvail false db line.skuBatchId
          ((m line.skuBatchId).getD 0 - line.quantity) >>= fun db1 =>
        insertReservation false (appendLedger db1 (allocLedgerEntry o line)) o
          line.skuBatchId line.quantity .PENDING >>= fun db3 =>
        reserveApplyLoop false o m rest (insertEvent db3 ⟨"InventoryAllocated",
          .allocated o line.skuBatchId line.quantity⟩)) = .ok db'
      exact hloop
    · rw [hledger]
      show (db.ledger ++ [allocLedgerEntry o line]) ++ rest.map (allocLedgerEntry o) = _
      rw [List.map_cons, List.append_assoc]
      rfl
    · intro b hb
      rw [List.map_cons, List.mem_cons] at hb
      push_neg at hb
      rw [hunused b hb.2]
      show getAvail (mapBatchAvail db line.skuBatchId
        (fun _ => (m line.skuBatchId).getD 0 - line.quantity)) b = getAvail db b
      rw [getAvail_mapBatchAvail, if_neg hb.1]
    · intro b l h
      unfold lastLineFor at h
      cases hrest : lastLineFor b rest with
      | some l' =>
        rw [hrest] at h
        injection h with h
        rw [h] at hrest
        rw [hlast b l hrest]
        show (getAvail (mapBatchAvail db line.skuBatchId
            (fun _ => (m line.skuBatchId).getD 0 - line.quantity)) b).map
            (fun _ => (m b).getD 0 - l.quantity) =
          (getAvail db b).map (fun _ => (m b).getD 0 - l.quantity)
        rw [getAvail_mapBatchAvail]
        by_cases hbi : b = line.skuBatchId
        · rw [if_pos hbi, Option.map_map]
          rfl
        · rw [if_neg hbi]
      | none =>
        rw [hrest] at h
        by_cases hx : (line.skuBatchId == b) = true
        · rw [if_pos hx] at h
          injection h with h
          subst h
          have hbeq : line.skuBatchId = b := by simpa using hx
          have hnm : b ∉ rest.map (·.skuBatchId) := by
            intro hc
            rcases List.mem_map.mp hc with ⟨l2, hl2, hl2b⟩
            exact lastLineFor_eq_none hrest l2 hl2 hl2b
          rw [hunused b hnm]
          show getAvail (mapBatchAvail db line.skuBatchId
              (fun _ => (m line.skuBatchId).getD 0 - line.quantity)) b =
            (getAvail db b).map (fun _ => (m b).getD 0 - line.quantity)
          rw [getAvail_mapBatchAvail, hbeq, if_pos rfl]
        · rw [if_neg hx] at h
          cases h

/-- Validation succeeds when every line's batch is in the map with enough
stock. -/
theorem validateLines_ok_of {m : Nat → Option Int} :
    ∀ {lines : List OrderLine},
      (∀ l ∈ lines, ∃ v, m l.skuBatchId = some v ∧ l.quantity ≤ v) →
      validateLines m lines = .ok () := by
  intro lines
  induction lines with
  | nil => intro _; rfl
  | cons x rest ih =>
    intro h
    obtain ⟨v, hv, hle⟩ := h x (List.mem_cons_self _ _)
    unfold validateLines
    rw [hv]
    dsimp only
    rw [if_neg (not_lt.mpr hle)]
    exact ih (fun l hl => h l (List.mem_cons_of_mem x hl))

/-- C10: when the lines passed to Reserve repeat a `batchId` (each quantity
within availability), every line's write is computed from the availability
read at lock time — the in-memory map is never decremented — so after the
apply loop the stored quantity is the locked value minus only the last
duplicate line's quantity, while one `ORDER_ALLOCATE` ledger row of
`-quantity` is appended for every line.  Stated of the service function
against the non-failing client of the unit-test harness (`strict = false`);
under the live unique constraint the duplicate reservation insert would abort
the transaction. -/
theorem c10_reserve_stale_availability_map (db : DB) (o : String) (lines : List OrderLine)
    (hne : lines ≠ [])
    (hpos : ∀ l ∈ lines, 0 < l.quantity)
    (hval : ∀ l ∈ lines, ∃ bb, findBatch db l.skuBatchId = some bb ∧
      l.quantity ≤ bb.availableQuantity) :
    (reserveInventoryForOrder false db o lines).isOk = true ∧
      (commit db (reserveInventoryForOrder false db o lines)).ledger =
        db.ledger ++ lines.map (allocLedgerEntry o) ∧
      (∀ (b : Nat) (bb : Batch) (l : OrderLine), findBatch db b = some bb →
        lastLineFor b lines = some l →
        getAvail (commit db (reserveInventoryForOrder false db o lines)) b =
          some (bb.availableQuantity - l.quantity)) := by
  have hfq : lines.find? (fun l => decide (l.quantity ≤ 0)) = none := by
    rw [List.find?_eq_none]
    intro l hl
    simp only [decide_eq_true_eq]
    exact not_le.mpr (hpos l hl)
  have hmv : ∀ l ∈ lines, ∃ v,
      batchMapOf db (reserveLockIds lines) l.skuBatchId = some v ∧ l.quantity ≤ v := by
    intro l hl
    obtain ⟨bb, hfb, hle⟩ := hval l hl
    refine ⟨bb.availableQuantity, ?_, hle⟩
    unfold batchMapOf
    rw [if_pos ((mem_reserveLockIds lines l.skuBatchId).mpr
      (List.mem_map_of_mem _ hl))]
    exact getAvail_eq_of_find hfb
  obtain ⟨db', hloop, hledger, _, hlast⟩ :=
    reserveApplyLoop_false_total o (batchMapOf db (reserveLockIds lines)) lines db
  have hrun : reserveInventoryForOrder false db o lines = .ok db' := by
    rw [reserve_eq_of_valid false db o lines hne hfq, validateLines_ok_of hmv, bindE_ok]
    exact hloop
  rw [hrun]
  refine ⟨rfl, hledger, ?_⟩
  intro b bb l hfb hll
  have hbm : batchMapOf db (reserveLockIds lines) b = some bb.availableQuantity := by
    obtain ⟨hlmem, hlb⟩ := lastLineFor_some hll
    unfold batchMapOf
    rw [if_pos ((mem_reserveLockIds lines b).mpr
      (hlb ▸ List.mem_map_of_mem _ hlmem))]
    exact getAvail_eq_of_find hfb
  show getAvail db' b = some (bb.availableQuantity - l.quantity)
  rw [hlast b l hll, getAvail_eq_of_find hfb, hbm]
  rfl

/-- C6 counterexample: with requested batch ids 2 and 10, the lock set built
by `[...new Set(...)].sort()` is `[10, 2]` — JavaScript's default sort is
lexicographic on the decimal strings — which is not ascending numeric order. -/
theorem c6_lock_order_counterexample :
    reserveLockIds [⟨2, 1⟩, ⟨10, 1⟩] = [10, 2] ∧
      ¬ List.Sorted (· ≤ ·) (reserveLockIds [⟨2, 1⟩, ⟨10, 1⟩]) := by
  constructor
  · decide
  · rw [(by decide : reserveLockIds [(⟨2, 1⟩ : OrderLine), ⟨10, 1⟩] = [10, 2])]
    decide

/-- C6 (amended): Reserve's lock set is the deduplicated requested batch ids
sorted in JavaScript string order (`jsStrLe`, lexicographic on decimal
representations) — ascending numeric order only when representations have
equal length; its `FOR UPDATE` query carries no `ORDER BY`.  Release's lock
set is the deduplicated batch ids of the fetched `PENDING` reservations in
table order, unsorted.  Both lock sets are duplicate-free. -/
theorem c6_amended_lock_order (lines : List OrderLine) (db : DB) (o : String) :
    List.Sorted jsStrLe (reserveLockIds lines) ∧
      (reserveLockIds lines).Nodup ∧
      (∀ b : Nat, b ∈ reserveLockIds lines ↔ b ∈ lines.map (·.skuBatchId)) ∧
      (releaseLockIds db o).Nodup ∧
      (∀ b : Nat, b ∈ releaseLockIds db o ↔
        b ∈ (pendingReservationsFor db o).map (·.skuBatchId)) :=
  ⟨sorted_jsSort _, nodup_jsSort (nodup_dedupFirst _), mem_reserveLockIds lines,
    nodup_dedupFirst _, fun b => mem_dedupFirst _ b⟩

/-- Outbox event status enum, from the check constraint on
`domain_event.status`. -/
inductive OutboxStatus where
  | PENDING
  | SENT
  | FAILED
deriving DecidableEq

/-- A `domain_event` row as the dispatcher sees it (`payload` is opaque to
the dispatcher and omitted; `createdAt` is the insertion timestamp). -/
structure OutboxEvent where
  id : Nat
  type : String
  status : OutboxStatus
  retryCount : Nat
  error : Option String
  createdAt : Nat
deriving DecidableEq

/-- Comparison used by `ORDER BY created_at`. -/
def createdLe (a b : OutboxEvent) : Prop :=
  a.createdAt ≤ b.createdAt

instance : DecidableRel createdLe := fun a b => by
  unfold createdLe
  infer_instance

instance : IsTotal OutboxEvent createdLe :=
  ⟨fun a b => Nat.le_total a.createdAt b.createdAt⟩

instance : IsTrans OutboxEvent createdLe :=
  ⟨fun _ _ _ hab hbc => Nat.le_trans hab hbc⟩

/-- `SELECT ... FROM domain_event WHERE status = 'PENDING' ORDER BY created_at
LIMIT batchSize FOR UPDATE SKIP LOCKED` (event-dispatcher `processBatch`,
single-dispatcher run: nothing is locked elsewhere). -/
def selectBatch (batchSize : Nat) (table : List OutboxEvent) : List OutboxEvent :=
  (List.insertionSort createdLe
    (table.filter (fun e => e.status == OutboxStatus.PENDING))).take batchSize

/-- Per-event outcome of one dispatcher tick: a selected event is marked
`SENT` on publish success, or `FAILED` with `retry_count` incremented and the
error message recorded on publish failure; unselected rows are untouched.
`pub` gives the broker outcome per event id (`none` = success). -/
def tickEvent (pub : Nat → Option String) (sel : List Nat) (e : OutboxEvent) :
    OutboxEvent :=
  if e.id ∈ sel then
    match pub e.id with
    | none => { e with status := .SENT }
    | some msg =>
      { e with
        status := .FAILED
        retryCount := e.retryCount + 1
        error := some msg }
  else e

/-- One tick of `EventDispatcher.processBatch`: select, publish each selected
event, and update its row; returns the new table and the ids the tick
attempted to publish. -/
def processBatch (pub : Nat → Option String) (batchSize : Nat)
    (table : List OutboxEvent) : List OutboxEvent × List Nat :=
  (table.map (tickEvent pub ((selectBatch batchSize table).map (·.id))),
    (selectBatch batchSize table).map (·.id))

/-- A run of dispatcher ticks with per-tick broker outcomes; returns the final
table and every id any tick attempted to publish. -/
def runTicks (batchSize : Nat) :
    List (Nat → Option String) → List OutboxEvent → List OutboxEvent × List Nat
  | [], table => (table, [])
  | pub :: rest, table =>
    ((runTicks batchSize rest (processBatch pub batchSize table).1).1,
      (processBatch pub batchSize table).2 ++
        (runTicks batchSize rest (processBatch pub batchSize table).1).2)

theorem eq_of_mem_nodup_key {α : Type} (key : α → Nat) {l : List α}
    (hnd : (l.map key).Nodup) {x y : α} (hx : x ∈ l) (hy : y ∈ l)
    (hk : key x = key y) : x = y := by
  have h1 := find?_key_of_mem_nodup key l hnd x hx
  have h2 := find?_key_of_mem_nodup key l hnd y hy
  rw [hk] at h1
  rw [h1] at h2
  exact Option.some.inj h2

theorem selectBatch_mem {n : Nat} {table : List OutboxEvent} {e : OutboxEvent}
    (he : e ∈ selectBatch n table) : e ∈ table ∧ e.status = .PENDING := by
  have h1 : e ∈ List.insertionSort createdLe
      (table.filter (fun e => e.status == OutboxStatus.PENDING)) :=
    List.take_subset n _ he
  have h2 := ((List.perm_insertionSort createdLe _).mem_iff).mp h1
  obtain ⟨h3, h4⟩ := List.mem_filter.mp h2
  exact ⟨h3, by simpa using h4⟩

theorem selectBatch_sorted (n : Nat) (table : List OutboxEvent) :
    List.Sorted createdLe (selectBatch n table) :=
  List.Pairwise.take (List.sorted_insertionSort createdLe _)

theorem tickEvent_id (pub : Nat → Option String) (sel : List Nat) (e : OutboxEvent) :
    (tickEvent pub sel e).id = e.id := by
  unfold tickEvent
  split
  · split <;> rfl
  · rfl

theorem processBatch_ids (pub : Nat → Option String) (n : Nat)
    (table : List OutboxEvent) :
    (processBatch pub n table).1.map (·.id) = table.map (·.id) := by
  show (table.map (tickEvent pub _)).map (·.id) = table.map (·.id)
  rw [List.map_map]
  exact List.map_congr_left fun e _ => tickEvent_id _ _ e

theorem find?_id_map_of_mem {f : OutboxEvent → OutboxEvent}
    (hf : ∀ x, (f x).id = x.id) :
    ∀ (table : List OutboxEvent), (table.map (·.id)).Nodup →
      ∀ e ∈ table, (table.map f).find? (fun x => x.id == e.id) = some (f e) := by
  intro table
  induction table with
  | nil => intro _ e he; cases he
  | cons a t ih =>
    intro hnd e he
    rw [List.map_cons, List.nodup_cons] at hnd
    rcases List.mem_cons.mp he with rfl | he
    · rw [List.map_cons, List.find?_cons_of_pos _ (by simp [hf])]
    · by_cases hk : a.id = e.id
      · exfalso
        exact hnd.1 (hk ▸ List.mem_map_of_mem (·.id) he)
      · rw [List.map_cons, List.find?_cons_of_neg _ (by simp [hf, hk])]
        exact ih hnd.2 e he

theorem failed_not_selected {n : Nat} {table : List OutboxEvent} {e : OutboxEvent}
    (hnd : (table.map (·.id)).Nodup) (he : e ∈ table) (hst : e.status = .FAILED) :
    e.id ∉ (selectBatch n table).map (·.id) := by
  intro hc
  rcases List.mem_map.mp hc with ⟨x, hx, hxid⟩
  obtain ⟨hxt, hxp⟩ := selectBatch_mem hx
  have hxe : x = e := eq_of_mem_nodup_key (·.id) hnd hxt he hxid
  rw [hxe, hst] at hxp
  cases hxp

/-- A `FAILED` row survives one tick untouched and is not selected. -/
theorem failed_frozen_tick {pub : Nat → Option String} {n : Nat}
    {table : List OutboxEvent} {e : OutboxEvent}
    (hnd : (table.map (·.id)).Nodup) (he : e ∈ table) (hst : e.status = .FAILED) :
    tickEvent pub ((selectBatch n table).map (·.id)) e = e ∧
      e.id ∉ (processBatch pub n table).2 := by
  have hnot : e.id ∉ (selectBatch n table).map (·.id) := failed_not_selected hnd he hst
  constructor
  · unfold tickEvent
    rw [if_neg hnot]
  · exact hnot

/-- C9: each dispatcher tick selects only `PENDING` events, at most
`batchSize` of them ordered by `createdAt`; a selected event whose publish
fails becomes `FAILED` with `retryCount` incremented and the error recorded;
and a `FAILED` event is never selected or re-published by any later run of
ticks, surviving unchanged. -/
theorem c9_dispatcher_failed_events (pub : Nat → Option String) (n : Nat)
    (table : List OutboxEvent) (e : OutboxEvent) (msg : String)
    (hnd : (table.map (·.id)).Nodup) (he : e ∈ table) :
    (∀ x ∈ selectBatch n table, x.status = .PENDING) ∧
      (selectBatch n table).length ≤ n ∧
      List.Sorted createdLe (selectBatch n table) ∧
      (e.id ∈ (processBatch pub n table).2 → pub e.id = some msg →
        (processBatch pub n table).1.find? (fun x => x.id == e.id) =
          some { e with
            status := .FAILED
            retryCount := e.retryCount + 1
            error := some msg }) ∧
      (e.status = .FAILED → ∀ pubs : List (Nat → Option String),
        (runTicks n pubs table).1.find? (fun x => x.id == e.id) = some e ∧
          e.id ∉ (runTicks n pubs table).2) := by
  refine ⟨fun x hx => (selectBatch_mem hx).2, List.length_take_le n _,
    selectBatch_sorted n table, ?_, ?_⟩
  · intro hsel hpub
    have hfind := find?_id_map_of_mem
      (tickEvent_id pub ((selectBatch n table).map (·.id))) table hnd e he
    show (table.map (tickEvent pub ((selectBatch n table).map (·.id)))).find?
      (fun x => x.id == e.id) = _
    rw [hfind]
    have hsel' : e.id ∈ (selectBatch n table).map (·.id) := hsel
    unfold tickEvent
    rw [if_pos hsel', hpub]
  · intro hst pubs
    induction pubs generalizing table with
    | nil =>
      exact ⟨find?_key_of_mem_nodup (·.id) table hnd e he, fun hc => by cases hc⟩
    | cons pub0 rest ih =>
      obtain ⟨htick, hnot⟩ := @failed_frozen_tick pub0 n _ _ hnd he hst
      have he' : e ∈ (processBatch pub0 n table).1 := by
        show e ∈ table.map (tickEvent pub0 ((selectBatch n table).map (·.id)))
        rw [← htick]
        exact List.mem_map_of_mem _ he
      have hnd' : ((processBatch pub0 n table).1.map (·.id)).Nodup := by
        rw [processBatch_ids]
        exact hnd
      obtain ⟨hfind, hmem⟩ := ih (processBatch pub0 n table).1 hnd' he'
      show ((runTicks n rest (processBatch pub0 n table).1).1.find?
          (fun x => x.id == e.id) = some e) ∧
        e.id ∉ (processBatch pub0 n table).2 ++
          (runTicks n rest (processBatch pub0 n table).1).2
      refine ⟨hfind, ?_⟩
      intro hc
      rcases List.mem_append.mp hc with hc | hc
      · exact hnot hc
      · exact hmem hc

/-- Store with an existing committed reservation: ORDER-1 holds 10 units of
batch 1 (90 of 100 still available). -/
def dbReserved : DB :=
  ⟨[⟨1, 100, 0, 90⟩],
   [⟨1, .ORDER_ALLOCATE, -10, .NABIS_ORDER, some "ORDER-1", none⟩],
   [⟨0, "ORDER-1", 1, 10, .PENDING⟩],
   [⟨"InventoryAllocated", .allocated "ORDER-1" 1 10⟩],
   [], 1⟩

/-- C1 (code evaluation at the failing input): a second Reserve with the
identical line multiset for the same order does not return success without
side effects — `reserveInventoryForOrder` has no idempotency probe, so the
retry re-runs the apply loop and hits the `(order_id, sku_batch_id)` unique
constraint, surfacing as `INTERNAL_ERROR` after rollback. -/
theorem c1_reserve_identical_retry_eval :
    reserveInventoryForOrder true dbReserved "ORDER-1" [⟨1, 10⟩] =
        .error .uniqueViolation ∧
      errorCode .uniqueViolation = "INTERNAL_ERROR" :=
  ⟨rfl, rfl⟩

/-- Store with a committed reservation for ORDER-1 on batch 1 and a second
untouched batch 2. -/
def dbReserved2 : DB :=
  ⟨[⟨1, 100, 0, 90⟩, ⟨2, 50, 0, 50⟩],
   [⟨1, .ORDER_ALLOCATE, -10, .NABIS_ORDER, some "ORDER-1", none⟩],
   [⟨0, "ORDER-1", 1, 10, .PENDING⟩],
   [⟨"InventoryAllocated", .allocated "ORDER-1" 1 10⟩],
   [], 1⟩

/-- C2 (code evaluation at the failing input): a Reserve for an order that
already has reservation rows with a DIFFERENT line multiset does not fail
with `ORDER_ALREADY_RESERVED` — a request for a different batch simply
succeeds and double-allocates, and a different quantity on the same batch
dies on the unique constraint (`INTERNAL_ERROR`), never
`ORDER_ALREADY_RESERVED`. -/
theorem c2_reserve_conflicting_retry_eval :
    (reserveInventoryForOrder true dbReserved2 "ORDER-1" [⟨2, 5⟩]).isOk = true ∧
      getAvail (commit dbReserved2
        (reserveInventoryForOrder true dbReserved2 "ORDER-1" [⟨2, 5⟩])) 2 = some 45 ∧
      reserveInventoryForOrder true dbReserved2 "ORDER-1" [⟨1, 20⟩] =
        .error .uniqueViolation :=
  ⟨rfl, rfl, rfl⟩

/-- Store whose only reservation rows for ORDER-1 are `CANCELLED` (the order
was released). -/
def dbCancelled : DB :=
  ⟨[⟨1, 100, 0, 100⟩],
   [⟨1, .ORDER_ALLOCATE, -10, .NABIS_ORDER, some "ORDER-1", none⟩,
    ⟨1, .ORDER_RELEASE, 10, .NABIS_ORDER, some "ORDER-1", none⟩],
   [⟨0, "ORDER-1", 1, 10, .CANCELLED⟩],
   [], [], 1⟩

/-- C5 (code evaluation at the failing input): `releaseInventoryForOrder`
raises `ORDER_NOT_FOUND` whenever no `PENDING` reservation exists — it never
probes for rows of other statuses, so an order whose reservations are all
`CANCELLED` is reported as not found instead of succeeding idempotently. -/
theorem c5_release_cancelled_eval :
    releaseInventoryForOrder true dbCancelled "ORDER-1" none =
        .error (.orderNotFound "ORDER-1") ∧
      errorCode (.orderNotFound "ORDER-1") = "ORDER_NOT_FOUND" :=
  ⟨rfl, rfl⟩

/-- C3: for every committed state reachable by any sequence of Reserve,
Release, Adjust and WMS reconciliation operations from a well-formed state
satisfying the ledger equation, every batch's `availableQuantity` equals its
initial quantity plus the signed sum of the `quantityDelta` of its ledger
entries. -/
theorem c3_ledger_sum_source_of_truth (init : Nat → Int) (db : DB) (ops : List Op)
    (hnd : BatchIdsNodup db) (hinv : LedgerInvariant init db) :
    LedgerInvariant init (applyOps db ops) :=
  (applyOps_preserves_invariant init ops db hnd hinv).1

/-- Fresh two-batch store for the C3 witness. -/
def c3db : DB := ⟨[⟨1, 100, 0, 100⟩, ⟨2, 50, 0, 50⟩], [], [], [], [], 0⟩

/-- Operation sequence exercising all four writers for the C3 witness. -/
def c3ops : List Op :=
  [.reserve "ORDER-1" [⟨1, 10⟩, ⟨2, 5⟩], .adjust 1 (-5) "damage",
   .reconcile ⟨"WMS-2", some 2, 40, none⟩, .release "ORDER-1" none,
   .reserve "ORDER-1" [⟨1, 10⟩]]

/-- Witness for C3 at a concrete store and operation sequence. -/
theorem c3_ledger_sum_source_of_truth_witness :
    BatchIdsNodup c3db ∧
      LedgerInvariant (fun b => if b = 1 then 100 else 50) c3db ∧
      LedgerInvariant (fun b => if b = 1 then 100 else 50) (applyOps c3db c3ops) :=
  ⟨by unfold BatchIdsNodup; decide, by unfold LedgerInvariant; decide,
    c3_ledger_sum_source_of_truth (fun b => if b = 1 then 100 else 50) c3db c3ops
      (by unfold BatchIdsNodup; decide) (by unfold LedgerInvariant; decide)⟩

/-- Fresh one-batch store for the C4 witness. -/
def c4db : DB := ⟨[⟨7, 100, 0, 40⟩], [], [], [], [], 0⟩

/-- Witness for C4 at a concrete store: empty lines and zero quantity are
`INVALID_QUANTITY`, requesting the exact availability zeroes the batch, one
more unit is `INSUFFICIENT_INVENTORY`. -/
theorem c4_reserve_boundary_behaviour_witness :
    BatchIdsNodup c4db ∧ findBatch c4db 7 = some ⟨7, 100, 0, 40⟩ ∧
      batchConstraintsOk ⟨7, 100, 0, 40⟩ = true ∧ (0 : Int) < 40 ∧
      hasReservationFor c4db "ORDER-W" 7 = false ∧
      reserveInventoryForOrder true c4db "ORDER-W" [] =
        .error (.invalidQuantity "Order must have at least one line") ∧
      (∃ msg, reserveInventoryForOrder true c4db "ORDER-W" [⟨7, 0⟩] =
        .error (.invalidQuantity msg)) ∧
      (∃ db', reserveInventoryForOrder true c4db "ORDER-W" [⟨7, 40⟩] = .ok db' ∧
        getAvail db' 7 = some 0) ∧
      reserveInventoryForOrder true c4db "ORDER-W" [⟨7, 41⟩] =
        .error (.insufficientInventory 7 41 40) := by
  have h := c4_reserve_boundary_behaviour c4db "ORDER-W" 7 ⟨7, 100, 0, 40⟩ [⟨7, 0⟩] ⟨7, 0⟩
    (by unfold BatchIdsNodup; decide) (by decide) (by decide) (by decide) (by decide)
  refine ⟨by unfold BatchIdsNodup; decide, by decide, by decide, by decide, by decide,
    h.1, ?_, ?_, ?_⟩
  · exact h.2.1 (List.mem_singleton.mpr rfl) (by decide)
  · exact h.2.2.1
  · exact h.2.2.2.1

/-- Witness for the amended C7 at a concrete store: a successful adjustment
of −10 lands at 90, appends the manual-adjustment ledger row, and writes no
event. -/
theorem c7_adjust_amended_witness :
    BatchIdsNodup c7db ∧ findBatch c7db 1 = some ⟨1, 100, 0, 100⟩ ∧
      (∃ db', adjustInventory true c7db 1 (-10) "correction" = .ok (db', 90) ∧
        getAvail db' 1 = some 90 ∧
        db'.ledger = c7db.ledger ++ [adjustLedgerEntry 1 (-10) "correction"] ∧
        db'.events = c7db.events ∧ db'.reservations = c7db.reservations) := by
  refine ⟨by unfold BatchIdsNodup; decide, by decide, ?_⟩
  exact (c7_adjust_amended c7db 1 (-10) "correction" ⟨1, 100, 0, 100⟩
    (by unfold BatchIdsNodup; decide) (by decide)).1 (by decide)

/-- Store for the C8 witness: batch 1 locally shows 90 available. -/
def c8db : DB := ⟨[⟨1, 100, 0, 90⟩], [], [], [], [], 0⟩

/-- Snapshot for the C8 witness: the WMS reports 85 orderable for batch 1. -/
def c8snap : SnapshotRow := ⟨"WMS-1", some 1, 85, none⟩

/-- Witness for C8 at a concrete store: the matched snapshot adjusts 90 to 85
writing one ledger row and one event, and an unmatched snapshot records only
the snapshot row. -/
theorem c8_reconcile_snapshot_witness :
    BatchIdsNodup c8db ∧
      (∃ db', reconcileBatch true c8db c8snap = .ok db' ∧
        getAvail db' 1 = some 85 ∧
        db'.snapshots = c8db.snapshots ++ [c8snap] ∧
        db'.ledger = c8db.ledger ++ [⟨1, .ADJUSTMENT, -5, .WMS_SYNC, some "WMS-1",
          some (.prevNew 90 85)⟩] ∧
        db'.events = c8db.events ++ [⟨"InventoryAdjusted",
          .adjusted 1 (-5) 85 "WMS_SYNC" "WMS reconciliation"⟩]) ∧
      reconcileBatch true c8db ⟨"WMS-X", none, 5, none⟩ =
        .ok (insertSnapshot c8db ⟨"WMS-X", none, 5, none⟩) := by
  refine ⟨by unfold BatchIdsNodup; decide, ?_, ?_⟩
  · exact ((c8_reconcile_snapshot c8db c8snap 1 ⟨1, 100, 0, 90⟩
      (by unfold BatchIdsNodup; decide)).2 rfl
      (by decide) (by decide)).2 (by decide) (by decide) (by decide) (by decide)
  · exact (c8_reconcile_snapshot c8db ⟨"WMS-X", none, 5, none⟩ 1 ⟨1, 100, 0, 90⟩
      (by unfold BatchIdsNodup; decide)).1 rfl

/-- Outbox table for the C9 witness: one `PENDING` event and one previously
`FAILED` event. -/
def c9table : List OutboxEvent :=
  [⟨1, "InventoryAllocated", .PENDING, 0, none, 10⟩,
   ⟨2, "InventoryReleased", .FAILED, 1, some "boom", 5⟩]

/-- Broker outcome for the C9 witness: publishing event 1 fails. -/
def c9pub : Nat → Option String :=
  fun i => if i = 1 then some "publish failed" else none

/-- Witness for C9 at a concrete outbox: the tick selects only the `PENDING`
row, records the publish failure on it, and the pre-existing `FAILED` row is
never selected or republished across two further ticks. -/
theorem c9_dispatcher_failed_events_witness :
    (c9table.map (·.id)).Nodup ∧
      (∀ x ∈ selectBatch 10 c9table, x.status = .PENDING) ∧
      (processBatch c9pub 10 c9table).1.find? (fun x => x.id == 1) =
        some ⟨1, "InventoryAllocated", .FAILED, 1, some "publish failed", 10⟩ ∧
      ((runTicks 10 [c9pub, c9pub] c9table).1.find? (fun x => x.id == 2) =
        some ⟨2, "InventoryReleased", .FAILED, 1, some "boom", 5⟩ ∧
        (2 : Nat) ∉ (runTicks 10 [c9pub, c9pub] c9table).2) := by
  have h1 := c9_dispatcher_failed_events c9pub 10 c9table
    ⟨1, "InventoryAllocated", .PENDING, 0, none, 10⟩ "publish failed" (by decide)
    (by decide)
  have h2 := c9_dispatcher_failed_events c9pub 10 c9table
    ⟨2, "InventoryReleased", .FAILED, 1, some "boom", 5⟩ "unused" (by decide) (by decide)
  refine ⟨by decide, h1.1, ?_, ?_⟩
  · exact h1.2.2.2.1 (by decide) (by decide)
  · exact h2.2.2.2.2 rfl [c9pub, c9pub]

/-- Store for the C10 witness: batch 1 with 10 available. -/
def c10db : DB := ⟨[⟨1, 100, 0, 10⟩], [], [], [], [], 0⟩

/-- Witness for C10 at a concrete duplicate-line request: two lines of 6 for
batch 1 leave the stored quantity at 10 − 6 = 4 (not 10 − 12) while two
`ORDER_ALLOCATE` rows of −6 are appended. -/
theorem c10_reserve_stale_availability_map_witness :
    (reserveInventoryForOrder false c10db "ORDER-D" [⟨1, 6⟩, ⟨1, 6⟩]).isOk = true ∧
      (commit c10db (reserveInventoryForOrder false c10db "ORDER-D"
        [⟨1, 6⟩, ⟨1, 6⟩])).ledger = c10db.ledger ++
        [⟨1, .ORDER_ALLOCATE, -6, .NABIS_ORDER, some "ORDER-D", none⟩,
          ⟨1, .ORDER_ALLOCATE, -6, .NABIS_ORDER, some "ORDER-D", none⟩] ∧
      getAvail (commit c10db (reserveInventoryForOrder false c10db "ORDER-D"
        [⟨1, 6⟩, ⟨1, 6⟩])) 1 = some 4 := by
  have h := c10_reserve_stale_availability_map c10db "ORDER-D" [⟨1, 6⟩, ⟨1, 6⟩]
    (by intro hc; cases hc) (by decide) ?_
  · refine ⟨h.1, h.2.1, ?_⟩
    exact h.2.2 1 ⟨1, 100, 0, 10⟩ ⟨1, 6⟩ (by decide) rfl
  · intro l hl
    rcases List.mem_cons.mp hl with rfl | hl
    · exact ⟨⟨1, 100, 0, 10⟩, by decide, by decide⟩
    · rcases List.mem_cons.mp hl with rfl | hl
      · exact ⟨⟨1, 100, 0, 10⟩, by decide, by decide⟩
      · cases hl

end Nabis
